import Mathlib

/-!
Verification development for the company-radar backend.

The definitions below are a shallow embedding of the two cores of the
repository: the streaming ingestion pipeline (`src/backend/ingest.py`)
and the subgraph-assembly / search read path
(`src/backend/app/repositories/graph_repository.py`).

Python/JSON values are modelled by `JVal`; Python dictionaries coming
from JSON objects are association lists (`JObj`).  The Neo4j store is
modelled as explicit lists of keyed node and edge records, and each
Cypher statement used by the code is translated into a pure state
transformer on that model, following the statement text (MERGE keyed by
`ftm_id`, `SET` of the tracked attributes, `OPTIONAL MATCH`/`coalesce`
endpoint resolution, `WHERE src IS NOT NULL AND tgt IS NOT NULL`).
-/
/-- A JSON / Python value as produced by `json`/`ijson` decoding.
Python `None` and JSON `null` are both `JVal.null` (they are the same
object in the source).  Numbers are modelled as integers; no claim
depends on non-integral numerics. -/
inductive JVal where
  | null : JVal
  | bool (b : Bool) : JVal
  | num (n : Int) : JVal
  | str (s : String) : JVal
  | arr (xs : List JVal) : JVal
  | obj (kvs : List (String × JVal)) : JVal

mutual

def JVal.decEq : (a b : JVal) → Decidable (a = b)
  | .null, .null => isTrue rfl
  | .null, .bool _ => isFalse (fun h => nomatch h)
  | .null, .num _ => isFalse (fun h => nomatch h)
  | .null, .str _ => isFalse (fun h => nomatch h)
  | .null, .arr _ => isFalse (fun h => nomatch h)
  | .null, .obj _ => isFalse (fun h => nomatch h)
  | .bool _, .null => isFalse (fun h => nomatch h)
  | .bool a, .bool b =>
      match inferInstanceAs (Decidable (a = b)) with
      | isTrue h => isTrue (by rw [h])
      | isFalse h => isFalse (fun hh => h (by cases hh; rfl))
  | .bool _, .num _ => isFalse (fun h => nomatch h)
  | .bool _, .str _ => isFalse (fun h => nomatch h)
  | .bool _, .arr _ => isFalse (fun h => nomatch h)
  | .bool _, .obj _ => isFalse (fun h => nomatch h)
  | .num _, .null => isFalse (fun h => nomatch h)
  | .num _, .bool _ => isFalse (fun h => nomatch h)
  | .num a, .num b =>
      match inferInstanceAs (Decidable (a = b)) with
      | isTrue h => isTrue (by rw [h])
      | isFalse h => isFalse (fun hh => h (by cases hh; rfl))
  | .num _, .str _ => isFalse (fun h => nomatch h)
  | .num _, .arr _ => isFalse (fun h => nomatch h)
  | .num _, .obj _ => isFalse (fun h => nomatch h)
  | .str _, .null => isFalse (fun h => nomatch h)
  | .str _, .bool _ => isFalse (fun h => nomatch h)
  | .str _, .num _ => isFalse (fun h => nomatch h)
  | .str a, .str b =>
      match inferInstanceAs (Decidable (a = b)) with
      | isTrue h => isTrue (by rw [h])
      | isFalse h => isFalse (fun hh => h (by cases hh; rfl))
  | .str _, .arr _ => isFalse (fun h => nomatch h)
  | .str _, .obj _ => isFalse (fun h => nomatch h)
  | .arr _, .null => isFalse (fun h => nomatch h)
  | .arr _, .bool _ => isFalse (fun h => nomatch h)
  | .arr _, .num _ => isFalse (fun h => nomatch h)
  | .arr _, .str _ => isFalse (fun h => nomatch h)
  | .arr xs, .arr ys =>
      match JVal.decEqList xs ys with
      | isTrue h => isTrue (by rw [h])
      | isFalse h => isFalse (fun hh => h (by cases hh; rfl))
  | .arr _, .obj _ => isFalse (fun h => nomatch h)
  | .obj _, .null => isFalse (fun h => nomatch h)
  | .obj _, .bool _ => isFalse (fun h => nomatch h)
  | .obj _, .num _ => isFalse (fun h => nomatch h)
  | .obj _, .str _ => isFalse (fun h => nomatch h)
  | .obj _, .arr _ => isFalse (fun h => nomatch h)
  | .obj xs, .obj ys =>
      match JVal.decEqKList xs ys with
      | isTrue h => isTrue (by rw [h])
      | isFalse h => isFalse (fun hh => h (by cases hh; rfl))

def JVal.decEqList : (xs ys : List JVal) → Decidable (xs = ys)
  | [], [] => isTrue rfl
  | [], _ :: _ => isFalse (fun h => nomatch h)
  | _ :: _, [] => isFalse (fun h => nomatch h)
  | x :: xs, y :: ys =>
      match JVal.decEq x y, JVal.decEqList xs ys with
      | isTrue h1, isTrue h2 => isTrue (by rw [h1, h2])
      | isFalse h1, _ => isFalse (fun h => h1 (by cases h; rfl))
      | _, isFalse h2 => isFalse (fun h => h2 (by cases h; rfl))

def JVal.decEqKList : (xs ys : List (String × JVal)) → Decidable (xs = ys)
  | [], [] => isTrue rfl
  | [], _ :: _ => isFalse (fun h => nomatch h)
  | _ :: _, [] => isFalse (fun h => nomatch h)
  | (k, v) :: xs, (k2, v2) :: ys =>
      match inferInstanceAs (Decidable (k = k2)), JVal.decEq v v2, JVal.decEqKList xs ys with
      | isTrue h0, isTrue h1, isTrue h2 => isTrue (by rw [h0, h1, h2])
      | isFalse h0, _, _ => isFalse (fun h => h0 (by cases h; rfl))
      | _, isFalse h1, _ => isFalse (fun h => h1 (by cases h; rfl))
      | _, _, isFalse h2 => isFalse (fun h => h2 (by cases h; rfl))

end

instance : DecidableEq JVal := JVal.decEq

/-- A decoded JSON object / Python dict (association list; JSON objects
have unique keys). -/
def JObj := List (String × JVal)

instance : DecidableEq JObj := inferInstanceAs (DecidableEq (List (String × JVal)))

/-- Python truthiness of a decoded JSON value (`bool(v)`). -/
def jtruthy : JVal → Bool
  | .null => false
  | .bool b => b
  | .num n => n != 0
  | .str s => s != ""
  | .arr xs => !xs.isEmpty
  | .obj kvs => !kvs.isEmpty

/-- Python `d.get(k)`: the value under `k`, or `None` when absent.
JSON null and a missing key are both `JVal.null`, exactly as in Python
where both are `None`. -/
def pyGet (o : JObj) (k : String) : JVal :=
  match o.find? (fun kv => kv.1 = k) with
  | some kv => kv.2
  | none => JVal.null

/-- Python `x or y`. -/
def pyOr (x y : JVal) : JVal :=
  if jtruthy x then x else y

/-- `entity.get("properties") or {}` from `ingest.py`, viewed as a dict.
(When the `properties` value is a truthy non-dict the Python code would
raise at the subsequent `.get`; well-formed inputs per the interface
contract carry a properties map, captured by `wfProps` below.) -/
def propsOf (entity : JObj) : JObj :=
  match pyGet entity "properties" with
  | .obj kvs => kvs
  | _ => []

/-- Well-formedness of a record: its `properties` value, when truthy, is
an object, so `props.get` is defined in the source. -/
def wfProps (entity : JObj) : Bool :=
  match pyGet entity "properties" with
  | .obj _ => true
  | v => !jtruthy v

/-- `prop_first` from `ingest.py`: first element of the property's value
when that value is a non-empty list, else `None`. -/
def prop_first (entity : JObj) (key : String) : JVal :=
  match pyGet (propsOf entity) key with
  | .arr (x :: _) => x
  | _ => JVal.null

/-- The node-row dict built by `to_node_row` in `ingest.py`. -/
structure NodeRow where
  id : JVal
  schema : JVal
  name : JVal
  datasets : JVal
  modified_at : JVal
deriving DecidableEq

/-- `to_node_row` from `ingest.py`. -/
def to_node_row (entity : JObj) : NodeRow :=
  { id := pyGet entity "id"
  , schema := pyGet entity "schema"
  , name := prop_first entity "name"
  , datasets := pyOr (pyGet entity "datasets") (JVal.arr [])
  , modified_at := pyOr (pyGet entity "modifiedAt") (pyGet entity "modified_at") }

/-- The relationship-row dict built by `to_rel_row` in `ingest.py`. -/
structure RelRow where
  id : JVal
  schema : JVal
  source_id : JVal
  target_id : JVal
  datasets : JVal
  modified_at : JVal
deriving DecidableEq

/-- `to_rel_row` from `ingest.py`: classifies `Directorship` /
`Ownership` records, extracting endpoint ids with `prop_first`; returns
`none` for any other schema or when either endpoint id is falsy. -/
def to_rel_row (entity : JObj) : Option (String × RelRow) :=
  let schema := pyGet entity "schema"
  if schema = JVal.str "Directorship" then
    let source_id := prop_first entity "director"
    let target_id := prop_first entity "organization"
    if !jtruthy source_id || !jtruthy target_id then none
    else some ("DIRECTORSHIP",
      { id := pyGet entity "id", schema := schema
      , source_id := source_id, target_id := target_id
      , datasets := pyOr (pyGet entity "datasets") (JVal.arr [])
      , modified_at := pyOr (pyGet entity "modifiedAt") (pyGet entity "modified_at") })
  else if schema = JVal.str "Ownership" then
    let source_id := prop_first entity "owner"
    let target_id := prop_first entity "asset"
    if !jtruthy source_id || !jtruthy target_id then none
    else some ("OWNERSHIP",
      { id := pyGet entity "id", schema := schema
      , source_id := source_id, target_id := target_id
      , datasets := pyOr (pyGet entity "datasets") (JVal.arr [])
      , modified_at := pyOr (pyGet entity "modifiedAt") (pyGet entity "modified_at") })
  else none

/-! ### Generic keyed bulk-upsert

Both `NODE_CYPHER` and `REL_CYPHER` are `UNWIND ... MERGE ... SET ...`
statements: rows are processed in order; a row whose key matches an
existing record overwrites that record's tracked attributes, otherwise a
new record is appended.  `m storedKey rowKey` is the Cypher match
predicate; for the statements in the source it is equality guarded by
`rowKey` being non-null (a null-keyed pattern never matches). -/
section Upsert

variable {K P : Type} (m : K → K → Bool)

/-- One `MERGE`/`SET` step: overwrite every record whose key matches the
row's key, or append the row when nothing matches. -/
def upsertOne (ns : List (K × P)) (row : K × P) : List (K × P) :=
  if ns.any (fun e => m e.1 row.1) then
    ns.map (fun e => if m e.1 row.1 then (e.1, row.2) else e)
  else ns ++ [row]

/-- A whole batch, rows in order (`UNWIND` semantics). -/
def upsertAll (ns : List (K × P)) (rows : List (K × P)) : List (K × P) :=
  rows.foldl (fun acc row => upsertOne m acc row) ns

/-- The attributes a record with key `k` holds after a batch: those of
the last matching row, if any. -/
def overrideLast (rows : List (K × P)) (e : K × P) : K × P :=
  match rows.reverse.find? (fun row => m e.1 row.1) with
  | some row => (e.1, row.2)
  | none => e

def hasKeyK (ks : List K) (k : K) : Bool :=
  ks.any (fun k0 => m k0 k)

/-- The records a batch appends (first sight of each fresh key, already
carrying the last matching row's attributes). -/
def newEntries (ks : List K) (rows : List (K × P)) : List (K × P) :=
  match rows with
  | [] => []
  | row :: rest =>
    if hasKeyK m ks row.1 then newEntries ks rest
    else overrideLast m rest row :: newEntries (ks ++ [row.1]) rest

end Upsert

/-! ### The graph store and the ingestion pipeline (`ingest.py`) -/
/-- Cypher property-map match used by `MERGE (n:L {ftm_id: row.id})` and
`OPTIONAL MATCH (n:L {ftm_id: x})`: equality, except that a null lookup
value never matches (null comparisons are not true in Cypher). -/
def cyMatch (stored rowKey : JVal) : Bool :=
  decide (stored = rowKey ∧ rowKey ≠ JVal.null)

/-- Tracked node attributes written by the `SET` clause of `NODE_CYPHER`. -/
structure NProps where
  schema : JVal
  name : JVal
  datasets : JVal
  modified_at : JVal
deriving DecidableEq

/-- The store record written for one node row (`MERGE` key `ftm_id`
paired with the `SET` attributes). -/
def nodeEntry (r : NodeRow) : JVal × NProps :=
  (r.id, { schema := r.schema, name := r.name, datasets := r.datasets
         , modified_at := r.modified_at })

/-- A resolved edge endpoint: a node of one of the two kinds, identified
by its `ftm_id` (node ids are unique per label in any store the pipeline
builds). -/
inductive NodeRef where
  | person (id : JVal) : NodeRef
  | company (id : JVal) : NodeRef
deriving DecidableEq

/-- Identity of a stored relationship: `MERGE (src)-[r:T {ftm_id:
row.id}]->(tgt)` keys an edge by its two (already bound) endpoints plus
its `ftm_id`. -/
def EKey := NodeRef × NodeRef × JVal

instance : DecidableEq EKey := inferInstanceAs (DecidableEq (NodeRef × NodeRef × JVal))

/-- Edge match for `MERGE (src)-[r:T {ftm_id: row.id}]->(tgt)`: same
endpoints and same `ftm_id`, never matching on a null id. -/
def ekMatch (stored rowKey : EKey) : Bool :=
  decide (stored = rowKey ∧ rowKey.2.2 ≠ JVal.null)

/-- Tracked edge attributes written by the `SET` clause of `REL_CYPHER`. -/
structure EProps where
  schema : JVal
  datasets : JVal
  modified_at : JVal
deriving DecidableEq

/-- The graph store: `Company` and `Person` nodes keyed by `ftm_id`, and
`DIRECTORSHIP` / `OWNERSHIP` edges keyed by (source, target, `ftm_id`). -/
structure Store where
  companies : List (JVal × NProps)
  persons : List (JVal × NProps)
  dirs : List (EKey × EProps)
  owns : List (EKey × EProps)
deriving DecidableEq

def emptyStore : Store := { companies := [], persons := [], dirs := [], owns := [] }

/-- `flush_nodes(session, "Company", batch)`: `NODE_CYPHER` unwinds the
batch in order and MERGE-upserts each row; an empty batch returns
without touching the store. -/
def flushCompanies (st : Store) (batch : List NodeRow) : Store :=
  if batch.isEmpty then st
  else { st with companies := upsertAll cyMatch st.companies (batch.map nodeEntry) }

/-- `flush_nodes(session, "Person", batch)`. -/
def flushPersons (st : Store) (batch : List NodeRow) : Store :=
  if batch.isEmpty then st
  else { st with persons := upsertAll cyMatch st.persons (batch.map nodeEntry) }

/-- The loop of `import_nodes`: route `Company` / `Person` records
through `to_node_row`, dropping rows with a falsy id, batching per
label, flushing a full batch, and flushing both batches at end of
stream.  Returns the final store and the two per-label row counters. -/
def importNodesGo (bs : Nat) :
    List JObj → Store → List NodeRow → List NodeRow → Nat → Nat → Store × Nat × Nat
  | [], st, cb, pb, c, p => (flushPersons (flushCompanies st cb) pb, c, p)
  | e :: es, st, cb, pb, c, p =>
    let schema := pyGet e "schema"
    if schema = JVal.str "Company" ∨ schema = JVal.str "Person" then
      let row := to_node_row e
      if jtruthy row.id then
        if schema = JVal.str "Company" then
          let cb2 := cb ++ [row]
          if bs ≤ cb2.length then
            importNodesGo bs es (flushCompanies st cb2) [] pb (c + 1) p
          else importNodesGo bs es st cb2 pb (c + 1) p
        else
          let pb2 := pb ++ [row]
          if bs ≤ pb2.length then
            importNodesGo bs es (flushPersons st pb2) cb [] c (p + 1)
          else importNodesGo bs es st cb pb2 c (p + 1)
      else importNodesGo bs es st cb pb c p
    else importNodesGo bs es st cb pb c p

/-- `import_nodes(path, driver, database, batch_size)` over the decoded
record sequence of the input file. -/
def import_nodes (entities : List JObj) (st : Store) (bs : Nat) : Store × Nat × Nat :=
  importNodesGo bs entities st [] [] 0 0

/-- `OPTIONAL MATCH (srcP:Person {ftm_id: x}) / (srcC:Company {ftm_id:
x})` followed by `coalesce(srcP, srcC)`: a Person match wins over a
Company match; no match of either kind resolves to null. -/
def resolveRef (st : Store) (idv : JVal) : Option NodeRef :=
  if st.persons.any (fun e => cyMatch e.1 idv) then some (NodeRef.person idv)
  else if st.companies.any (fun e => cyMatch e.1 idv) then some (NodeRef.company idv)
  else none

def relEProps (r : RelRow) : EProps :=
  { schema := r.schema, datasets := r.datasets, modified_at := r.modified_at }

/-- One `REL_CYPHER` row after endpoint resolution: `WHERE src IS NOT
NULL AND tgt IS NOT NULL` keeps only rows with both endpoints resolved;
a kept row MERGEs the edge keyed by (src, tgt, `ftm_id`). -/
def edgeEntryOf (st : Store) (row : RelRow) : Option (EKey × EProps) :=
  match resolveRef st row.source_id, resolveRef st row.target_id with
  | some s, some t => some ((s, t, row.id), relEProps row)
  | _, _ => none

/-- `flush_rels(session, rel_type, batch)`: `REL_CYPHER` unwinds the
batch in order, drops unresolved rows, and MERGE-upserts the rest; an
empty batch returns without touching the store. -/
def flushRels (st : Store) (relType : String) (batch : List RelRow) : Store :=
  if batch.isEmpty then st
  else if relType = "DIRECTORSHIP" then
    { st with dirs := upsertAll ekMatch st.dirs (batch.filterMap (edgeEntryOf st)) }
  else
    { st with owns := upsertAll ekMatch st.owns (batch.filterMap (edgeEntryOf st)) }

/-- The loop of `import_relationships`: route `Directorship` /
`Ownership` records through `to_rel_row`, dropping unclassifiable rows
and rows with a falsy edge id, batching per type, flushing full batches
and a final flush per type. -/
def importRelsGo (bs : Nat) :
    List JObj → Store → List RelRow → List RelRow → Nat → Nat → Store × Nat × Nat
  | [], st, db, ob, d, o => (flushRels (flushRels st "DIRECTORSHIP" db) "OWNERSHIP" ob, d, o)
  | e :: es, st, db, ob, d, o =>
    let schema := pyGet e "schema"
    if schema = JVal.str "Directorship" ∨ schema = JVal.str "Ownership" then
      match to_rel_row e with
      | none => importRelsGo bs es st db ob d o
      | some (relType, row) =>
        if jtruthy row.id then
          if relType = "DIRECTORSHIP" then
            let db2 := db ++ [row]
            if bs ≤ db2.length then
              importRelsGo bs es (flushRels st "DIRECTORSHIP" db2) [] ob (d + 1) o
            else importRelsGo bs es st db2 ob (d + 1) o
          else
            let ob2 := ob ++ [row]
            if bs ≤ ob2.length then
              importRelsGo bs es (flushRels st "OWNERSHIP" ob2) db [] d (o + 1)
            else importRelsGo bs es st db ob2 d (o + 1)
        else importRelsGo bs es st db ob d o
    else importRelsGo bs es st db ob d o

/-- `import_relationships(path, driver, database, batch_size)` over the
decoded record sequence of the input file. -/
def import_relationships (entities : List JObj) (st : Store) (bs : Nat) : Store × Nat × Nat :=
  importRelsGo bs entities st [] [] 0 0

/-- The full ingestion of `main`: `import_nodes` (pass 1) followed by
`import_relationships` (pass 2) over the same record sequence.  Returns
the final store and the (Company, Person, Directorship, Ownership)
counters. -/
def ingest (entities : List JObj) (st : Store) (bs : Nat) :
    Store × Nat × Nat × Nat × Nat :=
  let r1 := import_nodes entities st bs
  let r2 := import_relationships entities r1.1 bs
  (r2.1, r1.2.1, r1.2.2, r2.2.1, r2.2.2)

/-- The node rows of one label that the node pass accepts, in input
order. -/
def nodeRowsOf (entities : List JObj) (schemaName : String) : List NodeRow :=
  entities.filterMap (fun e =>
    if pyGet e "schema" = JVal.str schemaName then
      let row := to_node_row e
      if jtruthy row.id then some row else none
    else none)

/-- The relationship rows of one schema that the relationship pass
accepts, in input order. -/
def relRowsOf (entities : List JObj) (schemaName : String) : List RelRow :=
  entities.filterMap (fun e =>
    if pyGet e "schema" = JVal.str schemaName then
      match to_rel_row e with
      | some rr => if jtruthy rr.2.id then some rr.2 else none
      | none => none
    else none)

/-- Normal form of the node pass: each label's accepted rows applied as
one ordered bulk upsert (batching only splits the same ordered fold). -/
def nodesNormal (st : Store) (cb pb : List NodeRow) : Store :=
  { st with
    companies := upsertAll cyMatch st.companies (cb.map nodeEntry),
    persons := upsertAll cyMatch st.persons (pb.map nodeEntry) }

/-- Normal form of the relationship pass: each type's accepted rows
resolved against the (unchanging) node population and applied as one
ordered bulk upsert. -/
def relsNormal (st : Store) (db ob : List RelRow) : Store :=
  { st with
    dirs := upsertAll ekMatch st.dirs (db.filterMap (edgeEntryOf st)),
    owns := upsertAll ekMatch st.owns (ob.filterMap (edgeEntryOf st)) }

/-! ### Concrete inputs used by counterexamples and witnesses -/
/-- A `Company` record: id `C1`, name `Acme`. -/
def entAcme : JObj :=
  [("schema", JVal.str "Company"), ("id", JVal.str "C1"),
   ("properties", JVal.obj [("name", JVal.arr [JVal.str "Acme"])])]

/-- A `Person` record: id `P1`, name `Jane`. -/
def entJane : JObj :=
  [("schema", JVal.str "Person"), ("id", JVal.str "P1"),
   ("properties", JVal.obj [("name", JVal.arr [JVal.str "Jane"])])]

/-- A `Directorship` record `P1 -> C1` with id `D1`. -/
def entDir : JObj :=
  [("schema", JVal.str "Directorship"), ("id", JVal.str "D1"),
   ("properties", JVal.obj [("director", JVal.arr [JVal.str "P1"]),
     ("organization", JVal.arr [JVal.str "C1"])])]

/-- A `Company` record with id `X` and name `A`. -/
def entDupA : JObj :=
  [("schema", JVal.str "Company"), ("id", JVal.str "X"),
   ("properties", JVal.obj [("name", JVal.arr [JVal.str "A"])])]

/-- A `Company` record with the same id `X` but name `B`. -/
def entDupB : JObj :=
  [("schema", JVal.str "Company"), ("id", JVal.str "X"),
   ("properties", JVal.obj [("name", JVal.arr [JVal.str "B"])])]

/-- The accepted relationship row of `entDir`. -/
def rowD1 : RelRow :=
  { id := JVal.str "D1", schema := JVal.str "Directorship"
  , source_id := JVal.str "P1", target_id := JVal.str "C1"
  , datasets := JVal.arr [], modified_at := JVal.null }

/-- Records the node pass routes (`schema` in `("Company", "Person")`). -/
def isNodeSchema (e : JObj) : Bool :=
  decide (pyGet e "schema" = JVal.str "Company" ∨ pyGet e "schema" = JVal.str "Person")

/-- Records the relationship pass routes (`schema` in `("Directorship",
"Ownership")`). -/
def isRelSchema (e : JObj) : Bool :=
  decide (pyGet e "schema" = JVal.str "Directorship" ∨ pyGet e "schema" = JVal.str "Ownership")

/-! ### Subgraph assembly (`get_company_graph` in `graph_repository.py`) -/
/-- Python truthiness of an id/name/role field of a query-result row
(`None` and the empty string are falsy). -/
def strTruthy : Option String → Bool
  | none => false
  | some s => decide (s ≠ "")

/-- One row returned by the 2-hop query (`record.data()`): every
`RETURN` field is present, holding a string or `None`. -/
structure GraphRow where
  root_id : Option String
  root_name : Option String
  person_id : Option String
  person_name : Option String
  other_company_id : Option String
  other_company_name : Option String
  role_to_root : Option String
  role_to_other : Option String
deriving DecidableEq

/-- One entry of `nodes_by_id` (the value dict `{"id", "name", "type"}`;
the mapping key always equals the `id` field). -/
structure NodeView where
  id : String
  name : Option String
  type : String
deriving DecidableEq

/-- One entry of `links`. -/
structure LinkView where
  source : String
  target : String
  role : Option String
deriving DecidableEq

/-- `role or None`: the empty-string role collapses to the no-role
sentinel. -/
def normRole : Option String → Option String
  | some s => if s = "" then none else some s
  | none => none

/-- `_add_node` from `get_company_graph`: skip falsy ids; on first sight
insert `{id, name, type}` (dict insertion order = append); on a
re-sighting fill in the name only when the stored name is falsy and the
new one truthy. -/
def addNode (nodes : List NodeView) (node_id name : Option String) (tp : String) :
    List NodeView :=
  match node_id with
  | none => nodes
  | some nid =>
    if nid = "" then nodes
    else
      match nodes.find? (fun v => v.id = nid) with
      | some v0 =>
        if !strTruthy v0.name && strTruthy name then
          nodes.map (fun v => if v.id = nid then { v with name := name } else v)
        else nodes
      | none => nodes ++ [{ id := nid, name := name, type := tp }]

/-- `_add_link` from `get_company_graph`: skip falsy endpoints;
normalize the role; append the link unless the normalized (source,
target, role) triple was already added (`links_set` holds exactly the
triples of `links`, so the set test is list membership). -/
def addLink (links : List LinkView) (source target role : Option String) :
    List LinkView :=
  match source, target with
  | some s, some t =>
    if s = "" ∨ t = "" then links
    else
      let l : LinkView := { source := s, target := t, role := normRole role }
      if l ∈ links then links else links ++ [l]
  | _, _ => links

/-- The body of the row loop in `get_company_graph`: three `_add_node`
calls then two `_add_link` calls. -/
def assembleStep (acc : List NodeView × List LinkView) (row : GraphRow) :
    List NodeView × List LinkView :=
  let ns1 := addNode acc.1 row.root_id row.root_name "company"
  let ns2 := addNode ns1 row.person_id row.person_name "person"
  let ns3 := addNode ns2 row.other_company_id row.other_company_name "company"
  let ls1 := addLink acc.2 row.person_id row.root_id row.role_to_root
  let ls2 := addLink ls1 row.person_id row.other_company_id row.role_to_other
  (ns3, ls2)

/-- `get_company_graph`'s fold of the query rows into the
`{"nodes": ..., "links": ...}` view. -/
def get_company_graph (rows : List GraphRow) : List NodeView × List LinkView :=
  rows.foldl assembleStep ([], [])

/-- The (id, name, type) triples presented to `_add_node`, in call
order. -/
def nodeSights (rows : List GraphRow) :
    List (Option String × Option String × String) :=
  rows.flatMap (fun r =>
    [(r.root_id, r.root_name, "company"),
     (r.person_id, r.person_name, "person"),
     (r.other_company_id, r.other_company_name, "company")])

/-- The `_add_node` fold on its own. -/
def addNodeFold (acc : List NodeView)
    (sights : List (Option String × Option String × String)) : List NodeView :=
  sights.foldl (fun ns s => addNode ns s.1 s.2.1 s.2.2) acc

/-- The names presented for one node id, in presentation order. -/
def sightNames (sights : List (Option String × Option String × String))
    (nid : String) : List (Option String) :=
  sights.filterMap (fun s => if s.1 = some nid then some s.2.1 else none)

/-- The names presented for one node id over a row list. -/
def namesFor (rows : List GraphRow) (nid : String) : List (Option String) :=
  sightNames (nodeSights rows) nid

/-- The name stored for a node id in the assembled view, when present. -/
def finalName (nodes : List NodeView) (nid : String) : Option (Option String) :=
  (nodes.find? (fun v => v.id = nid)).map (fun v => v.name)

/-- A 2-hop query row: person `P1` (Jane) with a `director` role into
root `C1` (Acme) and a second directorship into `C2`. -/
def rowW : GraphRow :=
  { root_id := some "C1", root_name := some "Acme"
  , person_id := some "P1", person_name := some "Jane"
  , other_company_id := some "C2", other_company_name := none
  , role_to_root := some "director", role_to_other := none }

/-- A query row sighting person `P1` without a name. -/
def rowN1 : GraphRow :=
  { root_id := some "C1", root_name := some "Acme"
  , person_id := some "P1", person_name := none
  , other_company_id := none, other_company_name := none
  , role_to_root := none, role_to_other := none }

/-- A query row re-sighting person `P1` with the name `Jane`. -/
def rowN2 : GraphRow :=
  { root_id := some "C1", root_name := some "Acme"
  , person_id := some "P1", person_name := some "Jane"
  , other_company_id := none, other_company_name := none
  , role_to_root := none, role_to_other := none }

/-! ### Fulltext search with substring fallback (`search_companies`) -/
/-- One search result row (`ftm_id`, `name`, `score`).  Scores are
modelled as rationals; the fallback path only ever emits the constant
`0.0`. -/
structure SearchHit where
  id : Option String
  name : Option String
  score : ℚ
deriving DecidableEq

/-- A stored `Company` node as seen by the search queries. -/
structure StoreCompany where
  ftm_id : Option String
  name : Option String
deriving DecidableEq

/-- Substring containment on character lists (Cypher `CONTAINS`). -/
def containsSub (needle : List Char) : List Char → Bool
  | [] => needle.isEmpty
  | c :: t => needle.isPrefixOf (c :: t) || containsSub needle t

/-- `toLower(c.name) CONTAINS toLower($q)`; a null name makes the
predicate non-true, dropping the row. -/
def fallbackMatch (c : StoreCompany) (q : String) : Bool :=
  match c.name with
  | some n => containsSub q.toLower.data n.toLower.data
  | none => false

/-- The fallback Cypher of `search_companies`: case-insensitive
substring filter over `Company` names, constant score `0.0`, capped by
`LIMIT $limit`. -/
def fallbackSearch (companies : List StoreCompany) (q : String) (limit : Nat) :
    List SearchHit :=
  (((companies.filter (fun c => fallbackMatch c q)).map
    (fun c => { id := c.ftm_id, name := c.name, score := 0 : SearchHit })).take limit)

/-- `search_companies`: try the fulltext read; on a store query error
(`except Neo4jError`) run the fallback read instead.  The store's
response to the fulltext call is the `primary` argument. -/
def search_companies (primary : Except Unit (List SearchHit))
    (companies : List StoreCompany) (q : String) (limit : Nat) : List SearchHit :=
  match primary with
  | Except.ok rows => rows
  | Except.error _ => fallbackSearch companies q limit

/-- The stored company `C1` named `Acme`. -/
def compAcme : StoreCompany := { ftm_id := some "C1", name := some "Acme" }

/-- A `Directorship` record whose `director` property is a bare scalar
string instead of a list. -/
def entScalarDir : JObj :=
  [("schema", JVal.str "Directorship"), ("id", JVal.str "D2"),
   ("properties", JVal.obj [("director", JVal.str "P1"),
     ("organization", JVal.arr [JVal.str "C1"])])]

/-! ### Streaming source reader (`_first_non_ws_byte` / `iter_entities`) -/
/-- `_first_non_ws_byte`: scan a fixed 4096-byte prefix of the file for
the first byte that is not HT/LF/CR/SP. -/
def first_non_ws_byte (bytes : List Nat) : Option Nat :=
  (bytes.take 4096).find? (fun b => decide (b ≠ 9 ∧ b ≠ 10 ∧ b ≠ 13 ∧ b ≠ 32))

/-- `isinstance(entity, dict)`: keep only decoded objects. -/
def jObjOf : JVal → Option JObj
  | .obj kvs => some kvs
  | _ => none

/-- `iter_entities`: pick the streaming mode from the first
non-whitespace byte of the peeked prefix — `[` (byte 91) selects
single-array streaming, anything else concatenated top-level streaming,
no such byte yields nothing — and keep only the elements that decode to
objects.  The two ijson decoding modes (`items(f, "item")` and
`items(f, "", multiple_values=True)`) are external-library behavior and
enter as the `parseArr` / `parseMulti` parameters. -/
def iter_entities (parseArr parseMulti : List Nat → List JVal) (bytes : List Nat) :
    List JObj :=
  match first_non_ws_byte bytes with
  | none => []
  | some b =>
    if b = 91 then (parseArr bytes).filterMap jObjOf
    else (parseMulti bytes).filterMap jObjOf

/-! ### Theorems -/

section Upsert

variable {K P : Type} (m : K → K → Bool)

theorem upsertAll_append (ns : List (K × P)) (l1 l2 : List (K × P)) :
    upsertAll m ns (l1 ++ l2) = upsertAll m (upsertAll m ns l1) l2 :=
  List.foldl_append _ _ _ _

theorem overrideLast_key (rows : List (K × P)) (e : K × P) :
    (overrideLast m rows e).1 = e.1 := by
  unfold overrideLast
  cases rows.reverse.find? (fun row => m e.1 row.1) <;> rfl

theorem overrideLast_nil (e : K × P) : overrideLast m [] e = e := rfl

theorem hasKey_eq (ns : List (K × P)) (k : K) :
    ns.any (fun e => m e.1 k) = hasKeyK m (ns.map Prod.fst) k := by
  induction ns with
  | nil => rfl
  | cons e t ih =>
    simp only [List.map_cons, List.any_cons, hasKeyK] at ih ⊢
    rw [ih]

theorem overrideLast_cons (r : K × P) (rows : List (K × P)) (e : K × P) :
    overrideLast m (r :: rows) e =
      match rows.reverse.find? (fun row => m e.1 row.1) with
      | some row => (e.1, row.2)
      | none => if m e.1 r.1 then (e.1, r.2) else e := by
  unfold overrideLast
  rw [List.reverse_cons, List.find?_append]
  cases h : rows.reverse.find? (fun row => m e.1 row.1)
  · cases hm : m e.1 r.1 <;> simp [List.find?, Option.or, hm]
  · simp [Option.or]

theorem overrideLast_setIf (r : K × P) (rest : List (K × P)) (e : K × P) :
    overrideLast m rest (if m e.1 r.1 then (e.1, r.2) else e)
      = overrideLast m (r :: rest) e := by
  rw [overrideLast_cons]
  cases hm : m e.1 r.1
  · simp only [hm, Bool.false_eq_true, if_false]
    unfold overrideLast
    cases hf : rest.reverse.find? (fun row => m e.1 row.1) <;> rfl
  · simp only [hm, if_true]
    unfold overrideLast
    cases hf : rest.reverse.find? (fun row => m e.1 row.1) <;> rfl

/-- Characterization of a bulk upsert: existing records keep their keys
and receive the last matching row's attributes; fresh rows are appended
in first-sight order. -/
theorem upsertAll_char (rows : List (K × P)) (ns : List (K × P)) :
    upsertAll m ns rows =
      ns.map (overrideLast m rows) ++ newEntries m (ns.map Prod.fst) rows := by
  induction rows generalizing ns with
  | nil =>
    have h1 : ns.map (overrideLast m ([] : List (K × P))) = ns.map id :=
      List.map_congr_left (fun e _ => overrideLast_nil m e)
    simp only [upsertAll, List.foldl_nil, newEntries, List.append_nil, h1, List.map_id]
  | cons r rest ih =>
    show upsertAll m (upsertOne m ns r) rest = _
    unfold upsertOne
    by_cases h : ns.any (fun e => m e.1 r.1) = true
    · rw [if_pos h, ih]
      have hkeys : (ns.map (fun e => if m e.1 r.1 then (e.1, r.2) else e)).map Prod.fst
          = ns.map Prod.fst := by
        rw [List.map_map]
        exact List.map_congr_left (fun e _ => by cases hm : m e.1 r.1 <;> simp [hm])
      rw [hkeys]
      have hnew : newEntries m (ns.map Prod.fst) (r :: rest)
          = newEntries m (ns.map Prod.fst) rest := by
        rw [newEntries, ← hasKey_eq]
        simp [h]
      rw [hnew, List.map_map]
      congr 1
      exact List.map_congr_left (fun e _ => overrideLast_setIf m r rest e)
    · rw [if_neg h, ih]
      have hfalse : ns.any (fun e => m e.1 r.1) = false := by
        cases hx : ns.any (fun e => m e.1 r.1)
        · rfl
        · exact absurd hx h
      have hnomatch : ∀ e ∈ ns, m e.1 r.1 = false := by
        intro e he
        have := List.any_eq_false.mp hfalse e he
        simpa using this
      have hkeys : (ns ++ [r]).map Prod.fst = ns.map Prod.fst ++ [r.1] := by simp
      rw [hkeys]
      have hnew : newEntries m (ns.map Prod.fst) (r :: rest)
          = overrideLast m rest r :: newEntries m (ns.map Prod.fst ++ [r.1]) rest := by
        rw [newEntries, ← hasKey_eq]
        simp [hfalse]
      rw [hnew, List.map_append]
      have hmap : ns.map (overrideLast m (r :: rest)) = ns.map (overrideLast m rest) := by
        refine List.map_congr_left (fun e he => ?_)
        rw [overrideLast_cons]
        unfold overrideLast
        cases hf : rest.reverse.find? (fun row => m e.1 row.1)
        · simp [hnomatch e he]
        · rfl
      rw [hmap]
      simp [overrideLast]

theorem overrideLast_concat (l : List (K × P)) (r : K × P) (e : K × P) :
    overrideLast m (l ++ [r]) e =
      if m e.1 r.1 then (e.1, r.2) else overrideLast m l e := by
  unfold overrideLast
  rw [List.reverse_append, List.reverse_singleton, List.singleton_append]
  cases hm : m e.1 r.1
  · rw [List.find?_cons_of_neg _ (by simp [hm])]
    simp only [hm, Bool.false_eq_true, if_false]
  · rw [List.find?_cons_of_pos _ (by simp [hm])]
    simp only [hm, if_true]

/-- After a bulk upsert, every record already carries the attributes of
the last matching row: replaying the batch rewrites nothing. -/
theorem upsertAll_fixed (rows : List (K × P)) (ns : List (K × P))
    (hrefl : ∀ row ∈ rows, m row.1 row.1 = true) :
    ∀ e ∈ upsertAll m ns rows, overrideLast m rows e = e := by
  induction rows using List.reverseRecOn with
  | nil => exact fun e _ => overrideLast_nil m e
  | append_singleton l r ih =>
    intro e he
    rw [upsertAll_append] at he
    have hA := ih (fun row hr => hrefl row (by simp [hr]))
    rw [overrideLast_concat]
    have hsingle : upsertAll m (upsertAll m ns l) [r] = upsertOne m (upsertAll m ns l) r := rfl
    rw [hsingle] at he
    unfold upsertOne at he
    by_cases hany : (upsertAll m ns l).any (fun e0 => m e0.1 r.1) = true
    · rw [if_pos hany] at he
      obtain ⟨e0, he0, heq⟩ := List.mem_map.mp he
      cases hm : m e0.1 r.1
      · rw [hm] at heq
        simp only [Bool.false_eq_true, if_false] at heq
        subst heq
        rw [hm]
        simp only [Bool.false_eq_true, if_false]
        exact hA e0 he0
      · rw [hm] at heq
        simp only [if_true] at heq
        subst heq
        simp [hm]
    · rw [if_neg hany] at he
      have hfalse : (upsertAll m ns l).any (fun e0 => m e0.1 r.1) = false := by
        cases hx : (upsertAll m ns l).any (fun e0 => m e0.1 r.1)
        · rfl
        · exact absurd hx hany
      rcases List.mem_append.mp he with h1 | h2
      · have hm : m e.1 r.1 = false := by
          have := List.any_eq_false.mp hfalse e h1
          simpa using this
        rw [hm]
        simp only [Bool.false_eq_true, if_false]
        exact hA e h1
      · have heq : e = r := by simpa using h2
        subst heq
        rw [hrefl e (by simp)]
        simp

theorem newEntries_nil_of_hasKey (ks : List K) (rows : List (K × P))
    (h : ∀ row ∈ rows, hasKeyK m ks row.1 = true) :
    newEntries m ks rows = [] := by
  induction rows with
  | nil => rfl
  | cons r rest ih =>
    rw [newEntries, if_pos (h r (by simp))]
    exact ih (fun row hr => h row (by simp [hr]))

/-- Every row key of a batch is present after the batch: it matches a
pre-existing key or one of the freshly appended records. -/
theorem newEntries_complete (rows : List (K × P))
    (hrefl : ∀ row ∈ rows, m row.1 row.1 = true) :
    ∀ ks : List K, ∀ row ∈ rows,
      hasKeyK m (ks ++ (newEntries m ks rows).map Prod.fst) row.1 = true := by
  induction rows with
  | nil => intro ks row h; cases h
  | cons r rest ih =>
    intro ks row hrow
    have hrefl' : ∀ row ∈ rest, m row.1 row.1 = true :=
      fun row hr => hrefl row (by simp [hr])
    by_cases hk : hasKeyK m ks r.1 = true
    · rw [newEntries, if_pos hk]
      rcases List.mem_cons.mp hrow with heq | hmem
      · subst heq
        have : ks.any (fun k0 => m k0 row.1) = true := hk
        simp only [hasKeyK, List.any_append]
        rw [this]
        rfl
      · exact ih hrefl' ks row hmem
    · rw [newEntries, if_neg hk]
      rcases List.mem_cons.mp hrow with heq | hmem
      · subst heq
        simp only [hasKeyK, List.map_cons, List.any_append, List.any_cons,
          overrideLast_key, hrefl row (by simp)]
        simp
      · have := ih hrefl' (ks ++ [r.1]) row hmem
        rw [List.append_assoc] at this
        simp only [List.singleton_append] at this
        simp only [List.map_cons, overrideLast_key]
        exact this

/-- Replaying a batch whose row keys are self-matching changes nothing:
every key is already present and every record already carries the last
matching row's attributes. -/
theorem upsertAll_idem (rows : List (K × P)) (ns : List (K × P))
    (hrefl : ∀ row ∈ rows, m row.1 row.1 = true) :
    upsertAll m (upsertAll m ns rows) rows = upsertAll m ns rows := by
  rw [upsertAll_char m rows (upsertAll m ns rows)]
  have h1 : (upsertAll m ns rows).map (overrideLast m rows)
      = (upsertAll m ns rows).map id :=
    List.map_congr_left (fun e he => upsertAll_fixed m rows ns hrefl e he)
  rw [h1, List.map_id]
  have hkeys : (upsertAll m ns rows).map Prod.fst
      = ns.map Prod.fst ++ (newEntries m (ns.map Prod.fst) rows).map Prod.fst := by
    rw [upsertAll_char, List.map_append]
    congr 1
    rw [List.map_map]
    exact List.map_congr_left (fun e _ => overrideLast_key m rows e)
  have h2 : newEntries m ((upsertAll m ns rows).map Prod.fst) rows = [] := by
    apply newEntries_nil_of_hasKey
    intro row hrow
    rw [hkeys]
    exact newEntries_complete m rows hrefl (ns.map Prod.fst) row hrow
  rw [h2, List.append_nil]

end Upsert

example :
    to_rel_row [("schema", JVal.str "Directorship"), ("id", JVal.str "D1"),
      ("properties", JVal.obj [("director", JVal.arr [JVal.str "P1"]),
        ("organization", JVal.arr [JVal.str "C1"])])] =
    some ("DIRECTORSHIP",
      { id := JVal.str "D1", schema := JVal.str "Directorship"
      , source_id := JVal.str "P1", target_id := JVal.str "C1"
      , datasets := JVal.arr [], modified_at := JVal.null }) := by decide

theorem flushCompanies_eq (st : Store) (cb : List NodeRow) :
    flushCompanies st cb = nodesNormal st cb [] := by
  cases cb <;> rfl

theorem flushPersons_eq (st : Store) (pb : List NodeRow) :
    flushPersons st pb = nodesNormal st [] pb := by
  cases pb <;> rfl

theorem nodesNormal_comp (st : Store) (a b c d : List NodeRow) :
    nodesNormal (nodesNormal st a b) c d = nodesNormal st (a ++ c) (b ++ d) := by
  unfold nodesNormal
  simp [List.map_append, upsertAll_append]

theorem nodesNormal_nil (st : Store) : nodesNormal st [] [] = st := rfl

theorem importNodesGo_norm (bs : Nat) (entities : List JObj) :
    ∀ st cb pb c p, importNodesGo bs entities st cb pb c p =
      (nodesNormal st (cb ++ nodeRowsOf entities "Company") (pb ++ nodeRowsOf entities "Person"),
       c + (nodeRowsOf entities "Company").length,
       p + (nodeRowsOf entities "Person").length) := by
  induction entities with
  | nil =>
    intro st cb pb c p
    show (flushPersons (flushCompanies st cb) pb, c, p) = _
    rw [flushCompanies_eq, flushPersons_eq, nodesNormal_comp]
    simp [nodeRowsOf]
  | cons e es ih =>
    intro st cb pb c p
    show importNodesGo bs (e :: es) st cb pb c p = _
    have hCR : nodeRowsOf (e :: es) "Company" =
        (if pyGet e "schema" = JVal.str "Company" ∧ jtruthy (to_node_row e).id = true
         then [to_node_row e] else []) ++ nodeRowsOf es "Company" := by
      unfold nodeRowsOf
      rw [List.filterMap_cons]
      by_cases h1 : pyGet e "schema" = JVal.str "Company"
      · by_cases h2 : jtruthy (to_node_row e).id = true <;> simp [h1, h2]
      · simp [h1]
    have hPR : nodeRowsOf (e :: es) "Person" =
        (if pyGet e "schema" = JVal.str "Person" ∧ jtruthy (to_node_row e).id = true
         then [to_node_row e] else []) ++ nodeRowsOf es "Person" := by
      unfold nodeRowsOf
      rw [List.filterMap_cons]
      by_cases h1 : pyGet e "schema" = JVal.str "Person"
      · by_cases h2 : jtruthy (to_node_row e).id = true <;> simp [h1, h2]
      · simp [h1]
    unfold importNodesGo
    by_cases hs : pyGet e "schema" = JVal.str "Company" ∨ pyGet e "schema" = JVal.str "Person"
    · rw [if_pos hs]
      by_cases hid : jtruthy (to_node_row e).id = true
      · rw [if_pos hid]
        by_cases hc : pyGet e "schema" = JVal.str "Company"
        · rw [if_pos hc]
          have hPR2 : nodeRowsOf (e :: es) "Person" = nodeRowsOf es "Person" := by
            rw [hPR]
            have : ¬(pyGet e "schema" = JVal.str "Person") := by
              rw [hc]; decide
            simp [this]
          by_cases hb : bs ≤ (cb ++ [to_node_row e]).length
          · rw [if_pos hb, ih, flushCompanies_eq, nodesNormal_comp]
            rw [hCR, hPR2]
            simp [hc, hid, List.append_assoc, Nat.add_assoc, Nat.add_comm 1]
          · rw [if_neg hb, ih]
            rw [hCR, hPR2]
            simp [hc, hid, List.append_assoc, Nat.add_assoc, Nat.add_comm 1]
        · rw [if_neg hc]
          have hp : pyGet e "schema" = JVal.str "Person" := hs.resolve_left hc
          have hCR2 : nodeRowsOf (e :: es) "Company" = nodeRowsOf es "Company" := by
            rw [hCR]; simp [hc]
          by_cases hb : bs ≤ (pb ++ [to_node_row e]).length
          · rw [if_pos hb, ih, flushPersons_eq, nodesNormal_comp]
            rw [hCR2, hPR]
            simp [hp, hid, List.append_assoc, Nat.add_assoc, Nat.add_comm 1]
          · rw [if_neg hb, ih]
            rw [hCR2, hPR]
            simp [hp, hid, List.append_assoc, Nat.add_assoc, Nat.add_comm 1]
      · rw [if_neg hid, ih]
        rw [hCR, hPR]
        simp [hid]
    · rw [if_neg hs]
      have hc : ¬(pyGet e "schema" = JVal.str "Company") := fun h => hs (Or.inl h)
      have hp : ¬(pyGet e "schema" = JVal.str "Person") := fun h => hs (Or.inr h)
      rw [ih, hCR, hPR]
      simp [hc, hp]

/-- `import_nodes` in normal form: one bulk upsert per label over the
accepted rows, and the two row counters. -/
theorem import_nodes_norm (entities : List JObj) (st : Store) (bs : Nat) :
    import_nodes entities st bs =
      (nodesNormal st (nodeRowsOf entities "Company") (nodeRowsOf entities "Person"),
       (nodeRowsOf entities "Company").length,
       (nodeRowsOf entities "Person").length) := by
  unfold import_nodes
  rw [importNodesGo_norm]
  simp

theorem edgeEntryOf_congr (st1 st2 : Store)
    (hp : st1.persons = st2.persons) (hc : st1.companies = st2.companies) :
    edgeEntryOf st1 = edgeEntryOf st2 := by
  funext row
  unfold edgeEntryOf resolveRef
  rw [hp, hc]

theorem relsNormal_persons (st : Store) (db ob : List RelRow) :
    (relsNormal st db ob).persons = st.persons := rfl

theorem relsNormal_companies (st : Store) (db ob : List RelRow) :
    (relsNormal st db ob).companies = st.companies := rfl

theorem flushRels_dir_eq (st : Store) (db : List RelRow) :
    flushRels st "DIRECTORSHIP" db = relsNormal st db [] := by
  cases db <;> rfl

theorem flushRels_own_eq (st : Store) (ob : List RelRow) :
    flushRels st "OWNERSHIP" ob = relsNormal st [] ob := by
  cases ob <;> rfl

theorem relsNormal_comp (st : Store) (a b c d : List RelRow) :
    relsNormal (relsNormal st a b) c d = relsNormal st (a ++ c) (b ++ d) := by
  have heq : edgeEntryOf (relsNormal st a b) = edgeEntryOf st :=
    edgeEntryOf_congr _ _ rfl rfl
  unfold relsNormal
  unfold relsNormal at heq
  rw [heq]
  simp [List.filterMap_append, upsertAll_append]

theorem to_rel_row_schema (e : JObj) (rt : String) (row : RelRow)
    (h : to_rel_row e = some (rt, row)) :
    (rt = "DIRECTORSHIP" ∧ pyGet e "schema" = JVal.str "Directorship") ∨
    (rt = "OWNERSHIP" ∧ pyGet e "schema" = JVal.str "Ownership") := by
  simp only [to_rel_row] at h
  by_cases h1 : pyGet e "schema" = JVal.str "Directorship"
  · rw [if_pos h1] at h
    by_cases h2 : (!jtruthy (prop_first e "director") || !jtruthy (prop_first e "organization")) = true
    · rw [if_pos h2] at h; cases h
    · rw [if_neg h2] at h
      left
      refine ⟨?_, h1⟩
      injection h with h3
      injection h3 with h4 h5
      exact h4.symm
  · rw [if_neg h1] at h
    by_cases h1b : pyGet e "schema" = JVal.str "Ownership"
    · rw [if_pos h1b] at h
      by_cases h2 : (!jtruthy (prop_first e "owner") || !jtruthy (prop_first e "asset")) = true
      · rw [if_pos h2] at h; cases h
      · rw [if_neg h2] at h
        right
        refine ⟨?_, h1b⟩
        injection h with h3
        injection h3 with h4 h5
        exact h4.symm
    · rw [if_neg h1b] at h; cases h

theorem importRelsGo_norm (bs : Nat) (entities : List JObj) :
    ∀ st db ob d o, importRelsGo bs entities st db ob d o =
      (relsNormal st (db ++ relRowsOf entities "Directorship") (ob ++ relRowsOf entities "Ownership"),
       d + (relRowsOf entities "Directorship").length,
       o + (relRowsOf entities "Ownership").length) := by
  induction entities with
  | nil =>
    intro st db ob d o
    show (flushRels (flushRels st "DIRECTORSHIP" db) "OWNERSHIP" ob, d, o) = _
    rw [flushRels_dir_eq, flushRels_own_eq, relsNormal_comp]
    simp [relRowsOf]
  | cons e es ih =>
    intro st db ob d o
    have hDR : relRowsOf (e :: es) "Directorship" =
        (match to_rel_row e with
         | some rr =>
             if pyGet e "schema" = JVal.str "Directorship" ∧ jtruthy rr.2.id = true
             then [rr.2] else []
         | none => []) ++ relRowsOf es "Directorship" := by
      unfold relRowsOf
      rw [List.filterMap_cons]
      by_cases h1 : pyGet e "schema" = JVal.str "Directorship"
      · cases hr : to_rel_row e with
        | none => simp [h1, hr]
        | some rr =>
          by_cases h2 : jtruthy rr.2.id = true <;> simp [h1, hr, h2]
      · cases hr : to_rel_row e <;> simp [h1, hr]
    have hOR : relRowsOf (e :: es) "Ownership" =
        (match to_rel_row e with
         | some rr =>
             if pyGet e "schema" = JVal.str "Ownership" ∧ jtruthy rr.2.id = true
             then [rr.2] else []
         | none => []) ++ relRowsOf es "Ownership" := by
      unfold relRowsOf
      rw [List.filterMap_cons]
      by_cases h1 : pyGet e "schema" = JVal.str "Ownership"
      · cases hr : to_rel_row e with
        | none => simp [h1, hr]
        | some rr =>
          by_cases h2 : jtruthy rr.2.id = true <;> simp [h1, hr, h2]
      · cases hr : to_rel_row e <;> simp [h1, hr]
    show importRelsGo bs (e :: es) st db ob d o = _
    unfold importRelsGo
    by_cases hs : pyGet e "schema" = JVal.str "Directorship" ∨ pyGet e "schema" = JVal.str "Ownership"
    · rw [if_pos hs]
      cases hr : to_rel_row e with
      | none =>
        rw [ih, hDR, hOR]
        simp [hr]
      | some rr =>
        obtain ⟨rt, row⟩ := rr
        rcases to_rel_row_schema e rt row hr with ⟨hrt, hsch⟩ | ⟨hrt, hsch⟩
        · subst hrt
          dsimp only
          have hnotown : ¬(pyGet e "schema" = JVal.str "Ownership") := by
            rw [hsch]; decide
          have hOR2 : relRowsOf (e :: es) "Ownership" = relRowsOf es "Ownership" := by
            rw [hOR]; simp [hr, hnotown]
          by_cases hid : jtruthy row.id = true
          · rw [if_pos hid, if_pos rfl]
            by_cases hb : bs ≤ (db ++ [row]).length
            · rw [if_pos hb, ih, flushRels_dir_eq, relsNormal_comp]
              rw [hDR, hOR2]
              simp [hr, hsch, hid, List.append_assoc, Nat.add_assoc, Nat.add_comm 1]
            · rw [if_neg hb, ih, hDR, hOR2]
              simp [hr, hsch, hid, List.append_assoc, Nat.add_assoc, Nat.add_comm 1]
          · rw [if_neg hid, ih, hDR, hOR2]
            simp [hr, hsch, hid]
        · subst hrt
          dsimp only
          have hnotdir : ¬(pyGet e "schema" = JVal.str "Directorship") := by
            rw [hsch]; decide
          have hDR2 : relRowsOf (e :: es) "Directorship" = relRowsOf es "Directorship" := by
            rw [hDR]; simp [hr, hnotdir]
          by_cases hid : jtruthy row.id = true
          · rw [if_pos hid, if_neg (by decide : ¬(("OWNERSHIP" : String) = "DIRECTORSHIP"))]
            by_cases hb : bs ≤ (ob ++ [row]).length
            · rw [if_pos hb, ih, flushRels_own_eq, relsNormal_comp]
              rw [hDR2, hOR]
              simp [hr, hsch, hid, List.append_assoc, Nat.add_assoc, Nat.add_comm 1]
            · rw [if_neg hb, ih, hDR2, hOR]
              simp [hr, hsch, hid, List.append_assoc, Nat.add_assoc, Nat.add_comm 1]
          · rw [if_neg hid, ih, hDR2, hOR]
            simp [hr, hsch, hid]
    · rw [if_neg hs]
      have h1 : ¬(pyGet e "schema" = JVal.str "Directorship") := fun h => hs (Or.inl h)
      have h2 : ¬(pyGet e "schema" = JVal.str "Ownership") := fun h => hs (Or.inr h)
      rw [ih, hDR, hOR]
      cases hr : to_rel_row e <;> simp [h1, h2, hr]

/-- `import_relationships` in normal form: one bulk upsert per type over
the accepted rows resolved against the incoming node population. -/
theorem import_relationships_norm (entities : List JObj) (st : Store) (bs : Nat) :
    import_relationships entities st bs =
      (relsNormal st (relRowsOf entities "Directorship") (relRowsOf entities "Ownership"),
       (relRowsOf entities "Directorship").length,
       (relRowsOf entities "Ownership").length) := by
  unfold import_relationships
  rw [importRelsGo_norm]
  simp

theorem jtruthy_ne_null {v : JVal} (h : jtruthy v = true) : v ≠ JVal.null := by
  intro hv
  subst hv
  simp [jtruthy] at h

theorem nodeRowsOf_id_truthy (entities : List JObj) (sname : String) :
    ∀ r ∈ nodeRowsOf entities sname, jtruthy r.id = true := by
  intro r hr
  unfold nodeRowsOf at hr
  obtain ⟨e, _, hfe⟩ := List.mem_filterMap.mp hr
  split at hfe
  · dsimp only at hfe
    split at hfe
    · injection hfe with h3
      rw [← h3]
      assumption
    · cases hfe
  · cases hfe

theorem relRowsOf_id_truthy (entities : List JObj) (sname : String) :
    ∀ r ∈ relRowsOf entities sname, jtruthy r.id = true := by
  intro r hr
  unfold relRowsOf at hr
  obtain ⟨e, _, hfe⟩ := List.mem_filterMap.mp hr
  split at hfe
  · split at hfe
    · split at hfe
      · injection hfe with h3
        rw [← h3]
        assumption
      · cases hfe
    · cases hfe
  · cases hfe

theorem edgeEntryOf_key (st : Store) (row : RelRow) (entry : EKey × EProps)
    (h : edgeEntryOf st row = some entry) : entry.1.2.2 = row.id := by
  unfold edgeEntryOf at h
  split at h
  · injection h with h5
    rw [← h5]
  · cases h

theorem nodeRows_refl (entities : List JObj) (sname : String) :
    ∀ entry ∈ (nodeRowsOf entities sname).map nodeEntry,
      cyMatch entry.1 entry.1 = true := by
  intro entry hentry
  obtain ⟨r, hr, hre⟩ := List.mem_map.mp hentry
  have hid := nodeRowsOf_id_truthy entities sname r hr
  rw [← hre]
  simp [nodeEntry, cyMatch, jtruthy_ne_null hid]

theorem relRows_refl (N : Store) (entities : List JObj) (sname : String) :
    ∀ entry ∈ List.filterMap (edgeEntryOf N) (relRowsOf entities sname),
      ekMatch entry.1 entry.1 = true := by
  intro entry hentry
  obtain ⟨row, hrow, hsome⟩ := List.mem_filterMap.mp hentry
  have hkey := edgeEntryOf_key N row entry hsome
  have hid := relRowsOf_id_truthy entities sname row hrow
  simp [ekMatch, hkey, jtruthy_ne_null hid]

/-- `ingest` in normal form. -/
theorem ingest_norm (entities : List JObj) (st : Store) (bs : Nat) :
    ingest entities st bs =
      (relsNormal
         (nodesNormal st (nodeRowsOf entities "Company") (nodeRowsOf entities "Person"))
         (relRowsOf entities "Directorship") (relRowsOf entities "Ownership"),
       (nodeRowsOf entities "Company").length,
       (nodeRowsOf entities "Person").length,
       (relRowsOf entities "Directorship").length,
       (relRowsOf entities "Ownership").length) := by
  unfold ingest
  rw [import_nodes_norm]
  dsimp only
  rw [import_relationships_norm]

/-- C1: Ingestion is idempotent.  For every decoded input record
sequence, starting store, and batch size, running the full ingestion
(node pass then relationship pass) twice leaves the store in exactly the
state one run produces — node upserts are keyed by `ftm_id` within a
label and edge upserts by (endpoints, `ftm_id`) within a type, so no
duplicate nodes or edges are created — and after a run every stored
Company/Person record touched by the input carries the attributes
(schema, name, datasets, modified timestamp) of the last accepted input
row with its identifier. -/
theorem C1_ingest_idempotent (entities : List JObj) (st : Store) (bs : Nat) :
    (ingest entities (ingest entities st bs).1 bs).1 = (ingest entities st bs).1 ∧
    (∀ e ∈ (ingest entities st bs).1.companies,
      overrideLast cyMatch ((nodeRowsOf entities "Company").map nodeEntry) e = e) ∧
    (∀ e ∈ (ingest entities st bs).1.persons,
      overrideLast cyMatch ((nodeRowsOf entities "Person").map nodeEntry) e = e) := by
  have hreflC := nodeRows_refl entities "Company"
  have hreflP := nodeRows_refl entities "Person"
  rw [ingest_norm entities st bs]
  dsimp only
  rw [ingest_norm]
  dsimp only
  set CRv := nodeRowsOf entities "Company" with hCRv
  set PRv := nodeRowsOf entities "Person" with hPRv
  set DRv := relRowsOf entities "Directorship" with hDRv
  set ORv := relRowsOf entities "Ownership" with hORv
  set N := nodesNormal st CRv PRv with hN
  set S1 := relsNormal N DRv ORv with hS1
  have hreflD := relRows_refl N entities "Directorship"
  have hreflO := relRows_refl N entities "Ownership"
  have hN2 : nodesNormal S1 CRv PRv = S1 := by
    show Store.mk (upsertAll cyMatch S1.companies (CRv.map nodeEntry))
        (upsertAll cyMatch S1.persons (PRv.map nodeEntry)) S1.dirs S1.owns = S1
    have h1 : S1.companies = upsertAll cyMatch st.companies (CRv.map nodeEntry) := rfl
    have h2 : S1.persons = upsertAll cyMatch st.persons (PRv.map nodeEntry) := rfl
    rw [h1, h2, upsertAll_idem cyMatch (CRv.map nodeEntry) st.companies hreflC,
      upsertAll_idem cyMatch (PRv.map nodeEntry) st.persons hreflP, ← h1, ← h2]
  refine ⟨?_, ?_, ?_⟩
  · rw [hN2]
    show Store.mk S1.companies S1.persons
        (upsertAll ekMatch S1.dirs (List.filterMap (edgeEntryOf S1) DRv))
        (upsertAll ekMatch S1.owns (List.filterMap (edgeEntryOf S1) ORv)) = S1
    have hee : edgeEntryOf S1 = edgeEntryOf N := edgeEntryOf_congr _ _ rfl rfl
    rw [hee]
    have h3 : S1.dirs = upsertAll ekMatch N.dirs (List.filterMap (edgeEntryOf N) DRv) := rfl
    have h4 : S1.owns = upsertAll ekMatch N.owns (List.filterMap (edgeEntryOf N) ORv) := rfl
    rw [h3, h4,
      upsertAll_idem ekMatch (List.filterMap (edgeEntryOf N) DRv) N.dirs hreflD,
      upsertAll_idem ekMatch (List.filterMap (edgeEntryOf N) ORv) N.owns hreflO,
      ← h3, ← h4]
  · intro e he
    have h1 : S1.companies = upsertAll cyMatch st.companies (CRv.map nodeEntry) := rfl
    rw [h1] at he
    exact upsertAll_fixed cyMatch (CRv.map nodeEntry) st.companies hreflC e he
  · intro e he
    have h2 : S1.persons = upsertAll cyMatch st.persons (PRv.map nodeEntry) := rfl
    rw [h2] at he
    exact upsertAll_fixed cyMatch (PRv.map nodeEntry) st.persons hreflP e he

theorem filterMap_filter_eq {α β : Type} (p : α → Bool) (f : α → Option β) (l : List α)
    (h : ∀ a, p a = false → f a = none) :
    (l.filter p).filterMap f = l.filterMap f := by
  induction l with
  | nil => rfl
  | cons a t ih =>
    by_cases hp : p a = true
    · rw [List.filter_cons_of_pos hp, List.filterMap_cons, List.filterMap_cons, ih]
    · have hp2 : p a = false := by
        cases hx : p a
        · rfl
        · exact absurd hx hp
      rw [List.filter_cons_of_neg (by simp [hp2]), List.filterMap_cons, h a hp2, ih]

theorem nodeRowsOf_filter_company (ents : List JObj) :
    (ents.filter isNodeSchema).filterMap (fun e =>
       if pyGet e "schema" = JVal.str "Company" then
         let row := to_node_row e
         if jtruthy row.id then some row else none
       else none) = nodeRowsOf ents "Company" := by
  unfold nodeRowsOf
  apply filterMap_filter_eq
  intro e hp
  have hne : ¬(pyGet e "schema" = JVal.str "Company") := by
    intro hc
    simp [isNodeSchema, hc] at hp
  simp [hne]

theorem nodeRowsOf_filter_person (ents : List JObj) :
    (ents.filter isNodeSchema).filterMap (fun e =>
       if pyGet e "schema" = JVal.str "Person" then
         let row := to_node_row e
         if jtruthy row.id then some row else none
       else none) = nodeRowsOf ents "Person" := by
  unfold nodeRowsOf
  apply filterMap_filter_eq
  intro e hp
  have hne : ¬(pyGet e "schema" = JVal.str "Person") := by
    intro hc
    simp [isNodeSchema, hc] at hp
  simp [hne]

theorem relRowsOf_filter (ents : List JObj) (sname : String)
    (hs : sname = "Directorship" ∨ sname = "Ownership") :
    (ents.filter isRelSchema).filterMap (fun e =>
       if pyGet e "schema" = JVal.str sname then
         match to_rel_row e with
         | some rr => if jtruthy rr.2.id then some rr.2 else none
         | none => none
       else none) = relRowsOf ents sname := by
  unfold relRowsOf
  apply filterMap_filter_eq
  intro e hp
  have hne : ¬(pyGet e "schema" = JVal.str sname) := by
    intro hc
    rcases hs with hs | hs <;> (subst hs; simp [isRelSchema, hc] at hp)
  simp [hne]

/-- C7 (counterexample): the claim quantifies over every permutation of
the input records, but two `Company` records sharing id `X` with names
`A` and `B` are a permutation pair whose ingestion results differ (the
last accepted row's name wins), even though no edge record references a
missing node (there are no edge records at all). -/
theorem C7_counterexample :
    ([entDupB, entDupA]).Perm [entDupA, entDupB] ∧
    relRowsOf [entDupA, entDupB] "Directorship" = [] ∧
    relRowsOf [entDupA, entDupB] "Ownership" = [] ∧
    (ingest [entDupA, entDupB] emptyStore 5000).1 ≠
      (ingest [entDupB, entDupA] emptyStore 5000).1 :=
  ⟨List.Perm.swap entDupA entDupB [], by decide, by decide, by decide⟩

/-- C7 (amended): order-independence holds for every reordering of the
input that preserves the relative order of the node-schema records and
the relative order of the edge-schema records — in particular for any
interleaving of node and edge records, which the two-pass design makes
irrelevant.  Final store and counters coincide. -/
theorem C7_order_independence (ents1 ents2 : List JObj) (st : Store) (bs : Nat)
    (hn : ents1.filter isNodeSchema = ents2.filter isNodeSchema)
    (hr : ents1.filter isRelSchema = ents2.filter isRelSchema) :
    ingest ents1 st bs = ingest ents2 st bs := by
  have hc : nodeRowsOf ents1 "Company" = nodeRowsOf ents2 "Company" := by
    rw [← nodeRowsOf_filter_company ents1, ← nodeRowsOf_filter_company ents2, hn]
  have hp : nodeRowsOf ents1 "Person" = nodeRowsOf ents2 "Person" := by
    rw [← nodeRowsOf_filter_person ents1, ← nodeRowsOf_filter_person ents2, hn]
  have hd : relRowsOf ents1 "Directorship" = relRowsOf ents2 "Directorship" := by
    rw [← relRowsOf_filter ents1 "Directorship" (Or.inl rfl),
      ← relRowsOf_filter ents2 "Directorship" (Or.inl rfl), hr]
  have ho : relRowsOf ents1 "Ownership" = relRowsOf ents2 "Ownership" := by
    rw [← relRowsOf_filter ents1 "Ownership" (Or.inr rfl),
      ← relRowsOf_filter ents2 "Ownership" (Or.inr rfl), hr]
  rw [ingest_norm, ingest_norm, hc, hp, hd, ho]

/-- Witness for `C7_order_independence`: moving the edge record of the
end-to-end example before the node records does not change the result. -/
theorem C7_order_independence_witness :
    ingest [entAcme, entJane, entDir] emptyStore 5000 =
      ingest [entDir, entAcme, entJane] emptyStore 5000 :=
  C7_order_independence [entAcme, entJane, entDir] [entDir, entAcme, entJane]
    emptyStore 5000 (by decide) (by decide)

/-- C9 (counterexample): on an input holding one `Directorship` record
whose endpoints never appear as nodes, `ingest` reports one directorship
when zero edges were created or updated (the final store is still
empty), so the returned counters are not counts of edges created or
updated. -/
theorem C9_counterexample :
    (ingest [entDir] emptyStore 5000).2.2.2.1 = 1 ∧
    (ingest [entDir] emptyStore 5000).1 = emptyStore := by
  constructor
  · decide
  · decide

/-- C9 (amended): `ingest` returns, per node kind and per edge type, the
number of input records accepted by the corresponding pass (records of
that schema that classify with a truthy identifier) — a per-row count
which may exceed the number of distinct nodes or edges created or
updated, since duplicate identifiers are counted once per row and edge
rows dropped for unresolved endpoints are still counted. -/
theorem C9_counts_are_accepted_rows (entities : List JObj) (st : Store) (bs : Nat) :
    (ingest entities st bs).2 =
      ((nodeRowsOf entities "Company").length,
       (nodeRowsOf entities "Person").length,
       (relRowsOf entities "Directorship").length,
       (relRowsOf entities "Ownership").length) := by
  rw [ingest_norm]

/-- C6: dangling edges are dropped without side effects.  A relationship
row with an unresolved endpoint yields no edge entry; flushing a batch
containing such a row equals flushing the batch without it (no abort,
other rows unaffected); and any materialized edge entry comes from a row
whose two endpoints resolved, keyed by them and the row's id. -/
theorem C6_dangling_edge_dropped (st : Store) (rt : String) (row : RelRow)
    (b1 b2 : List RelRow)
    (h : resolveRef st row.source_id = none ∨ resolveRef st row.target_id = none) :
    edgeEntryOf st row = none ∧
    flushRels st rt (b1 ++ row :: b2) = flushRels st rt (b1 ++ b2) ∧
    (∀ r2 entry, edgeEntryOf st r2 = some entry →
      ∃ s t, resolveRef st r2.source_id = some s ∧
        resolveRef st r2.target_id = some t ∧ entry.1 = (s, t, r2.id)) := by
  have ha : edgeEntryOf st row = none := by
    unfold edgeEntryOf
    split
    · rcases h with h | h <;> simp_all
    · rfl
  refine ⟨ha, ?_, ?_⟩
  · have hfm : (b1 ++ row :: b2).filterMap (edgeEntryOf st)
        = (b1 ++ b2).filterMap (edgeEntryOf st) := by
      rw [List.filterMap_append, List.filterMap_append, List.filterMap_cons, ha]
    have hne : (b1 ++ row :: b2).isEmpty = false := by
      cases b1 <;> rfl
    cases hbe : (b1 ++ b2).isEmpty
    · unfold flushRels
      rw [hne, hbe]
      simp only [Bool.false_eq_true, if_false, hfm]
    · have hb1 : b1 = [] := by
        cases b1 with
        | nil => rfl
        | cons x t => simp [List.isEmpty] at hbe
      subst hb1
      have hb2 : b2 = [] := by
        cases b2 with
        | nil => rfl
        | cons x t => simp [List.isEmpty] at hbe
      subst hb2
      unfold flushRels
      simp only [List.nil_append, List.isEmpty_cons, Bool.false_eq_true, if_false,
        List.isEmpty_nil, if_true]
      by_cases hrt : rt = "DIRECTORSHIP"
      · rw [if_pos hrt]
        rw [show List.filterMap (edgeEntryOf st) [row] = [] by
          rw [List.filterMap_cons, ha]; rfl]
        rfl
      · rw [if_neg hrt]
        rw [show List.filterMap (edgeEntryOf st) [row] = [] by
          rw [List.filterMap_cons, ha]; rfl]
        rfl
  · intro r2 entry h2
    unfold edgeEntryOf at h2
    split at h2
    · injection h2 with h3
      refine ⟨_, _, by assumption, by assumption, ?_⟩
      rw [← h3]
    · cases h2

/-- Witness for `C6_dangling_edge_dropped`: the dangling directorship
row `D1` against the empty store. -/
theorem C6_dangling_edge_dropped_witness :
    edgeEntryOf emptyStore rowD1 = none ∧
    flushRels emptyStore "DIRECTORSHIP" ([] ++ rowD1 :: []) =
      flushRels emptyStore "DIRECTORSHIP" ([] ++ []) ∧
    (∀ r2 entry, edgeEntryOf emptyStore r2 = some entry →
      ∃ s t, resolveRef emptyStore r2.source_id = some s ∧
        resolveRef emptyStore r2.target_id = some t ∧ entry.1 = (s, t, r2.id)) :=
  C6_dangling_edge_dropped emptyStore "DIRECTORSHIP" rowD1 [] [] (by decide)

theorem addLink_nodup (links : List LinkView) (s t r : Option String)
    (h : links.Nodup) : (addLink links s t r).Nodup := by
  unfold addLink
  cases s with
  | none => exact h
  | some sv =>
    cases t with
    | none => exact h
    | some tv =>
      dsimp only
      by_cases he : sv = "" ∨ tv = ""
      · rw [if_pos he]; exact h
      · rw [if_neg he]
        by_cases hm : ({ source := sv, target := tv, role := normRole r } : LinkView) ∈ links
        · rw [if_pos hm]; exact h
        · rw [if_neg hm]
          simp [List.nodup_append, h, hm]

theorem addLink_superset (links : List LinkView) (s t r : Option String)
    (l : LinkView) (h : l ∈ links) : l ∈ addLink links s t r := by
  unfold addLink
  cases s with
  | none => exact h
  | some sv =>
    cases t with
    | none => exact h
    | some tv =>
      dsimp only
      by_cases he : sv = "" ∨ tv = ""
      · rw [if_pos he]; exact h
      · rw [if_neg he]
        by_cases hm : ({ source := sv, target := tv, role := normRole r } : LinkView) ∈ links
        · rw [if_pos hm]; exact h
        · rw [if_neg hm]; exact List.mem_append_left _ h

theorem addLink_self (links : List LinkView) (sv tv : String) (r : Option String)
    (hs : sv ≠ "") (ht : tv ≠ "") :
    ({ source := sv, target := tv, role := normRole r } : LinkView)
      ∈ addLink links (some sv) (some tv) r := by
  unfold addLink
  dsimp only
  rw [if_neg (by simp [hs, ht])]
  by_cases hm : ({ source := sv, target := tv, role := normRole r } : LinkView) ∈ links
  · rw [if_pos hm]; exact hm
  · rw [if_neg hm]; exact List.mem_append_right _ (by simp)

theorem assemble_links_nodup (rows : List GraphRow) :
    ∀ acc : List NodeView × List LinkView, acc.2.Nodup →
      (rows.foldl assembleStep acc).2.Nodup := by
  induction rows with
  | nil => exact fun acc h => h
  | cons r rest ih =>
    intro acc h
    exact ih (assembleStep acc r) (addLink_nodup _ _ _ _ (addLink_nodup _ _ _ _ h))

theorem assemble_links_superset (rows : List GraphRow) :
    ∀ acc : List NodeView × List LinkView, ∀ l ∈ acc.2,
      l ∈ (rows.foldl assembleStep acc).2 := by
  induction rows with
  | nil => exact fun acc l h => h
  | cons r rest ih =>
    intro acc l h
    exact ih (assembleStep acc r) l (addLink_superset _ _ _ _ _ (addLink_superset _ _ _ _ _ h))

theorem assemble_links_mem (rows : List GraphRow) :
    ∀ acc : List NodeView × List LinkView, ∀ row ∈ rows,
      (∀ s t, row.person_id = some s → s ≠ "" → row.root_id = some t → t ≠ "" →
        ({ source := s, target := t, role := normRole row.role_to_root } : LinkView)
          ∈ (rows.foldl assembleStep acc).2) ∧
      (∀ s t, row.person_id = some s → s ≠ "" → row.other_company_id = some t → t ≠ "" →
        ({ source := s, target := t, role := normRole row.role_to_other } : LinkView)
          ∈ (rows.foldl assembleStep acc).2) := by
  induction rows with
  | nil => intro acc row h; cases h
  | cons r rest ih =>
    intro acc row hrow
    rcases List.mem_cons.mp hrow with heq | hmem
    · subst heq
      constructor
      · intro s t hs hs2 ht ht2
        apply assemble_links_superset rest (assembleStep acc row)
        show _ ∈ addLink (addLink acc.2 row.person_id row.root_id row.role_to_root)
          row.person_id row.other_company_id row.role_to_other
        apply addLink_superset
        rw [hs, ht]
        exact addLink_self _ _ _ _ hs2 ht2
      · intro s t hs hs2 ht ht2
        apply assemble_links_superset rest (assembleStep acc row)
        show _ ∈ addLink (addLink acc.2 row.person_id row.root_id row.role_to_root)
          row.person_id row.other_company_id row.role_to_other
        rw [hs, ht]
        exact addLink_self _ _ _ _ hs2 ht2
    · exact ih (assembleStep acc r) row hmem

/-- C2: subgraph assembly deduplicates edges.  The assembled link list
holds each normalized (source, target, role) triple at most once
(`Nodup` on exactly those records, the empty-string role having been
collapsed to the no-role sentinel before comparison); every row with
truthy person and root (resp. other-company) identifiers contributes its
normalized triple to the output, so the same pair with two different
normalized roles yields two distinct link records; and `_add_link` adds
nothing when the source or target identifier is missing or empty. -/
theorem C2_assembly_dedups_links (rows : List GraphRow) :
    (get_company_graph rows).2.Nodup ∧
    (∀ row ∈ rows, ∀ s t, row.person_id = some s → s ≠ "" →
      row.root_id = some t → t ≠ "" →
      ({ source := s, target := t, role := normRole row.role_to_root } : LinkView)
        ∈ (get_company_graph rows).2) ∧
    (∀ row ∈ rows, ∀ s t, row.person_id = some s → s ≠ "" →
      row.other_company_id = some t → t ≠ "" →
      ({ source := s, target := t, role := normRole row.role_to_other } : LinkView)
        ∈ (get_company_graph rows).2) ∧
    (∀ (ls : List LinkView) (src tgt role : Option String),
      src = none ∨ src = some "" ∨ tgt = none ∨ tgt = some "" →
      addLink ls src tgt role = ls) := by
  refine ⟨assemble_links_nodup rows ([], []) List.nodup_nil,
    fun row hrow => (assemble_links_mem rows ([], []) row hrow).1,
    fun row hrow => (assemble_links_mem rows ([], []) row hrow).2,
    ?_⟩
  intro ls src tgt role h
  unfold addLink
  rcases h with h | h | h | h <;> subst h
  · rfl
  · cases tgt with
    | none => rfl
    | some tv => simp
  · cases src with
    | none => rfl
    | some sv => rfl
  · cases src with
    | none => rfl
    | some sv => simp

/-- Witness for `C2_assembly_dedups_links`: the duplicated row `rowW`
yields a duplicate-free link list still containing the `P1 -> C1`
link. -/
theorem C2_assembly_dedups_links_witness :
    (get_company_graph [rowW, rowW]).2.Nodup ∧
    ({ source := "P1", target := "C1", role := normRole rowW.role_to_root } : LinkView)
      ∈ (get_company_graph [rowW, rowW]).2 :=
  ⟨(C2_assembly_dedups_links [rowW, rowW]).1,
   (C2_assembly_dedups_links [rowW, rowW]).2.1 rowW (List.mem_cons_self _ _)
     "P1" "C1" rfl (by decide) rfl (by decide)⟩

theorem find?_map_of_id (g : NodeView → NodeView) (hg : ∀ v, (g v).id = v.id)
    (nodes : List NodeView) (nid : String) :
    (nodes.map g).find? (fun v => v.id = nid)
      = (nodes.find? (fun v => v.id = nid)).map g := by
  induction nodes with
  | nil => rfl
  | cons v t ih =>
    by_cases hv : v.id = nid
    · rw [List.map_cons, List.find?_cons_of_pos _ (by simp [hg v, hv]),
        List.find?_cons_of_pos _ (by simp [hv])]
      rfl
    · rw [List.map_cons, List.find?_cons_of_neg _ (by simp [hg v, hv]),
        List.find?_cons_of_neg _ (by simp [hv]), ih]

/-- Invariant of the `_add_node` fold: a node already present keeps its
name once truthy, and otherwise receives the first truthy name later
presented for its id (or keeps its stored name if none is). -/
theorem addNodeFold_name_inv (sights : List (Option String × Option String × String)) :
    ∀ (acc : List NodeView) (nid : String) (v0 : NodeView),
      nid ≠ "" →
      acc.find? (fun v => v.id = nid) = some v0 →
      (addNodeFold acc sights).find? (fun v => v.id = nid) =
        some { v0 with name := if strTruthy v0.name then v0.name
                               else ((sightNames sights nid).find? strTruthy).getD v0.name } := by
  induction sights with
  | nil =>
    intro acc nid v0 hnid hfind
    show acc.find? (fun v => v.id = nid)
      = some { v0 with name := if strTruthy v0.name then v0.name else v0.name }
    rw [hfind, ite_self]
  | cons s rest ih =>
    intro acc nid v0 hnid hfind
    obtain ⟨sid, snm, stp⟩ := s
    show (addNodeFold (addNode acc sid snm stp) rest).find? (fun v => v.id = nid) = _
    cases sid with
    | none =>
      have hnames : sightNames ((none, snm, stp) :: rest) nid = sightNames rest nid := by
        unfold sightNames
        rw [List.filterMap_cons]
        simp
      rw [show addNode acc none snm stp = acc from rfl, hnames]
      exact ih acc nid v0 hnid hfind
    | some sidv =>
      by_cases hse : sidv = ""
      · subst hse
        have hnames : sightNames ((some "", snm, stp) :: rest) nid = sightNames rest nid := by
          unfold sightNames
          rw [List.filterMap_cons]
          have : ¬((some "" : Option String) = some nid) := by
            intro hc
            exact hnid (Option.some.inj hc).symm
          simp [this]
        rw [show addNode acc (some "") snm stp = acc from rfl, hnames]
        exact ih acc nid v0 hnid hfind
      · by_cases hsn : sidv = nid
        · subst hsn
          have hv0 : v0.id = sidv := by simpa using List.find?_some hfind
          have hnames : sightNames ((some sidv, snm, stp) :: rest) sidv
              = snm :: sightNames rest sidv := by
            unfold sightNames
            rw [List.filterMap_cons]
            simp
          by_cases hupd : (!strTruthy v0.name && strTruthy snm) = true
          · have hstep : addNode acc (some sidv) snm stp =
                acc.map (fun v => if v.id = sidv then { v with name := snm } else v) := by
              unfold addNode
              dsimp only
              rw [if_neg hse, hfind]
              dsimp only
              rw [if_pos hupd]
            have hfind2 : (acc.map (fun v => if v.id = sidv then { v with name := snm } else v)).find?
                (fun v => v.id = sidv) = some { v0 with name := snm } := by
              rw [find?_map_of_id]
              · rw [hfind]
                simp [hv0]
              · intro v
                by_cases hv : v.id = sidv <;> simp [hv]
            have hname : strTruthy v0.name = false := by
              cases hx : strTruthy v0.name
              · rfl
              · rw [hx] at hupd
                simp at hupd
            have hsnm : strTruthy snm = true := by
              cases hx : strTruthy snm
              · rw [hx] at hupd
                simp at hupd
              · rfl
            rw [hstep, ih _ sidv { v0 with name := snm } hnid hfind2, hnames, hname]
            rw [List.find?_cons_of_pos _ hsnm]
            simp [hsnm]
          · have hstep : addNode acc (some sidv) snm stp = acc := by
              unfold addNode
              dsimp only
              rw [if_neg hse, hfind]
              dsimp only
              rw [if_neg hupd]
            rw [hstep, ih acc sidv v0 hnid hfind, hnames]
            cases hx : strTruthy v0.name
            · have hsnm : strTruthy snm = false := by
                cases hy : strTruthy snm
                · rfl
                · exfalso
                  apply hupd
                  rw [hx, hy]
                  rfl
              simp only [Bool.false_eq_true, if_false]
              rw [List.find?_cons_of_neg _ (by simp [hsnm])]
            · simp
        · have hfind2 : (addNode acc (some sidv) snm stp).find? (fun v => v.id = nid)
              = some v0 := by
            unfold addNode
            dsimp only
            rw [if_neg hse]
            cases hf : acc.find? (fun v => v.id = sidv) with
            | some w =>
              dsimp only
              by_cases hc : (!strTruthy w.name && strTruthy snm) = true
              · rw [if_pos hc, find?_map_of_id]
                · rw [hfind]
                  have hv0 : v0.id = nid := by simpa using List.find?_some hfind
                  have : ¬(v0.id = sidv) := by
                    rw [hv0]
                    intro hc2
                    exact hsn hc2.symm
                  simp [this]
                · intro v
                  by_cases hv : v.id = sidv <;> simp [hv]
              · rw [if_neg hc]
                exact hfind
            | none =>
              dsimp only
              rw [List.find?_append, hfind]
              rfl
          have hnames : sightNames ((some sidv, snm, stp) :: rest) nid = sightNames rest nid := by
            unfold sightNames
            rw [List.filterMap_cons]
            have : ¬((some sidv : Option String) = some nid) := by
              intro hc
              exact hsn (Option.some.inj hc)
            simp [this]
          rw [hnames]
          exact ih _ nid v0 hnid hfind2

/-- A node first added by the `_add_node` fold ends up named by the
first truthy name among its presentations, defaulting to the name of
its first sight. -/
theorem addNodeFold_name_new (sights : List (Option String × Option String × String)) :
    ∀ (acc : List NodeView) (nid : String),
      nid ≠ "" →
      acc.find? (fun v => v.id = nid) = none →
      ((addNodeFold acc sights).find? (fun v => v.id = nid)).map (fun v => v.name) =
        match sightNames sights nid with
        | [] => none
        | nm0 :: rest2 => some (((nm0 :: rest2).find? strTruthy).getD nm0) := by
  induction sights with
  | nil =>
    intro acc nid hnid hfind
    show (acc.find? (fun v => v.id = nid)).map (fun v => v.name) = _
    rw [hfind]
    rfl
  | cons s rest ih =>
    intro acc nid hnid hfind
    obtain ⟨sid, snm, stp⟩ := s
    show ((addNodeFold (addNode acc sid snm stp) rest).find? (fun v => v.id = nid)).map
      (fun v => v.name) = _
    cases sid with
    | none =>
      have hnames : sightNames ((none, snm, stp) :: rest) nid = sightNames rest nid := by
        unfold sightNames
        rw [List.filterMap_cons]
        simp
      rw [show addNode acc none snm stp = acc from rfl, hnames]
      exact ih acc nid hnid hfind
    | some sidv =>
      by_cases hse : sidv = ""
      · subst hse
        have hnames : sightNames ((some "", snm, stp) :: rest) nid = sightNames rest nid := by
          unfold sightNames
          rw [List.filterMap_cons]
          have : ¬((some "" : Option String) = some nid) := by
            intro hc
            exact hnid (Option.some.inj hc).symm
          simp [this]
        rw [show addNode acc (some "") snm stp = acc from rfl, hnames]
        exact ih acc nid hnid hfind
      · by_cases hsn : sidv = nid
        · subst hsn
          have hstep : addNode acc (some sidv) snm stp
              = acc ++ [{ id := sidv, name := snm, type := stp }] := by
            unfold addNode
            dsimp only
            rw [if_neg hse, hfind]
          have hfind2 : (acc ++ [({ id := sidv, name := snm, type := stp } : NodeView)]).find?
              (fun v => v.id = sidv) = some { id := sidv, name := snm, type := stp } := by
            rw [List.find?_append, hfind]
            simp
          have hnames : sightNames ((some sidv, snm, stp) :: rest) sidv
              = snm :: sightNames rest sidv := by
            unfold sightNames
            rw [List.filterMap_cons]
            simp
          rw [hstep, addNodeFold_name_inv rest _ sidv _ hnid hfind2, hnames]
          dsimp only
          cases hsnm : strTruthy snm
          · rw [List.find?_cons_of_neg _ (by simp [hsnm])]
            simp
          · rw [List.find?_cons_of_pos _ hsnm]
            simp
        · have hfind2 : (addNode acc (some sidv) snm stp).find? (fun v => v.id = nid)
              = none := by
            unfold addNode
            dsimp only
            rw [if_neg hse]
            cases hf : acc.find? (fun v => v.id = sidv) with
            | some w =>
              dsimp only
              by_cases hc : (!strTruthy w.name && strTruthy snm) = true
              · rw [if_pos hc, find?_map_of_id]
                · rw [hfind]
                  rfl
                · intro v
                  by_cases hv : v.id = sidv <;> simp [hv]
              · rw [if_neg hc]
                exact hfind
            | none =>
              dsimp only
              rw [List.find?_append, hfind, Option.none_or,
                List.find?_cons_of_neg _ (by simp [hsn])]
              rfl
          have hnames : sightNames ((some sidv, snm, stp) :: rest) nid = sightNames rest nid := by
            unfold sightNames
            rw [List.filterMap_cons]
            have : ¬((some sidv : Option String) = some nid) := by
              intro hc
              exact hsn (Option.some.inj hc)
            simp [this]
          rw [hnames]
          exact ih _ nid hnid hfind2

theorem addNodeFold_no_empty (sights : List (Option String × Option String × String)) :
    ∀ acc : List NodeView, acc.find? (fun v => v.id = "") = none →
      (addNodeFold acc sights).find? (fun v => v.id = "") = none := by
  induction sights with
  | nil => exact fun acc h => h
  | cons s rest ih =>
    intro acc h
    obtain ⟨sid, snm, stp⟩ := s
    show (addNodeFold (addNode acc sid snm stp) rest).find? (fun v => v.id = "") = none
    apply ih
    cases sid with
    | none => exact h
    | some sidv =>
      by_cases hse : sidv = ""
      · subst hse
        rw [show addNode acc (some "") snm stp = acc from rfl]
        exact h
      · unfold addNode
        dsimp only
        rw [if_neg hse]
        cases hf : acc.find? (fun v => v.id = sidv) with
        | some w =>
          dsimp only
          by_cases hc : (!strTruthy w.name && strTruthy snm) = true
          · rw [if_pos hc, find?_map_of_id]
            · rw [h]
              rfl
            · intro v
              by_cases hv : v.id = sidv <;> simp [hv]
          · rw [if_neg hc]
            exact h
        | none =>
          dsimp only
          rw [List.find?_append, h, Option.none_or,
            List.find?_cons_of_neg _ (by simp [hse])]
          rfl

theorem assemble_nodes_eq (rows : List GraphRow) :
    ∀ acc : List NodeView × List LinkView,
      (rows.foldl assembleStep acc).1 = addNodeFold acc.1 (nodeSights rows) := by
  induction rows with
  | nil => exact fun acc => rfl
  | cons r rest ih =>
    intro acc
    show (rest.foldl assembleStep (assembleStep acc r)).1 = _
    rw [ih]
    have hsights : nodeSights (r :: rest) =
        [(r.root_id, r.root_name, "company"), (r.person_id, r.person_name, "person"),
         (r.other_company_id, r.other_company_name, "company")] ++ nodeSights rest := rfl
    rw [hsights]
    rfl

/-- C3: name back-fill, never downgrade.  For every folded row sequence
and node identifier present in the assembled view, the stored name is
the first truthy name among the (id, name) presentations for that
identifier, defaulting to the first presented name when none is truthy:
a node first seen without a name receives the first non-empty name a
later row supplies, and a name once non-empty is never overwritten by a
later blank or different name. -/
theorem C3_name_backfill (rows : List GraphRow) (nid : String) (nm : Option String)
    (h : finalName (get_company_graph rows).1 nid = some nm) :
    nm = ((namesFor rows nid).find? strTruthy).getD ((namesFor rows nid).headI) := by
  unfold namesFor
  by_cases hnid : nid = ""
  · subst hnid
    exfalso
    have hnodes : (get_company_graph rows).1 = addNodeFold [] (nodeSights rows) :=
      assemble_nodes_eq rows ([], [])
    rw [finalName, hnodes, addNodeFold_no_empty (nodeSights rows) [] rfl] at h
    simp at h
  · have hnodes : (get_company_graph rows).1 = addNodeFold [] (nodeSights rows) :=
      assemble_nodes_eq rows ([], [])
    rw [finalName, hnodes] at h
    rw [addNodeFold_name_new (nodeSights rows) [] nid hnid rfl] at h
    cases hns : sightNames (nodeSights rows) nid with
    | nil =>
      rw [hns] at h
      simp at h
    | cons nm0 rest2 =>
      rw [hns] at h
      dsimp only at h
      injection h with h2
      rw [← h2]
      rfl

/-- Witness for `C3_name_backfill`: the name of `P1`, first sighted
blank then as `Jane`, resolves to `Jane`. -/
theorem C3_name_backfill_witness :
    (some "Jane" : Option String) =
      ((namesFor [rowN1, rowN2] "P1").find? strTruthy).getD
        ((namesFor [rowN1, rowN2] "P1").headI) :=
  C3_name_backfill [rowN1, rowN2] "P1" (some "Jane") (by decide)

/-- C4: the search fallback fires exactly on store query errors.  When
the fulltext path raises, the result is the fallback's case-insensitive
substring match — score `0.0` on rows drawn from the stored companies,
capped at the limit — and not an error; when the fulltext path succeeds
with zero rows the empty result is returned as-is, the fallback result
(which may be non-empty) notwithstanding. -/
theorem C4_search_fallback_on_error (companies : List StoreCompany) (q : String)
    (limit : Nat) :
    (∀ err : Unit, search_companies (Except.error err) companies q limit
        = fallbackSearch companies q limit) ∧
    (∀ h ∈ fallbackSearch companies q limit, h.score = 0 ∧
      ∃ c ∈ companies, h.id = c.ftm_id ∧ h.name = c.name ∧ fallbackMatch c q = true) ∧
    (fallbackSearch companies q limit).length ≤ limit ∧
    search_companies (Except.ok []) companies q limit = [] := by
  refine ⟨fun _ => rfl, ?_, ?_, rfl⟩
  · intro h hmem
    have hmem2 := List.mem_of_mem_take hmem
    obtain ⟨c, hc, hce⟩ := List.mem_map.mp hmem2
    refine ⟨by rw [← hce], c, (List.mem_filter.mp hc).1, ?_, ?_, ?_⟩
    · rw [← hce]
    · rw [← hce]
    · exact (List.mem_filter.mp hc).2
  · exact List.length_take_le limit _

/-- Witness for `C4_search_fallback_on_error`: searching `acm` against
one stored company while the fulltext path errors yields the fallback
rows; a successful empty fulltext read stays empty. -/
theorem C4_search_fallback_on_error_witness :
    search_companies (Except.error ()) [compAcme] "acm" 10
        = fallbackSearch [compAcme] "acm" 10 ∧
    search_companies (Except.ok []) [compAcme] "acm" 10 = [] :=
  ⟨(C4_search_fallback_on_error [compAcme] "acm" 10).1 (),
   (C4_search_fallback_on_error [compAcme] "acm" 10).2.2.2⟩

theorem prop_first_of_list (e : JObj) (k : String) (x : JVal) (xs : List JVal)
    (h : pyGet (propsOf e) k = JVal.arr (x :: xs)) : prop_first e k = x := by
  unfold prop_first
  rw [h]

theorem prop_first_null (e : JObj) (k : String)
    (h : ∀ x xs, pyGet (propsOf e) k ≠ JVal.arr (x :: xs)) :
    prop_first e k = JVal.null := by
  unfold prop_first
  split
  · rename_i x xs heq
    exact absurd heq (h x xs)
  · rfl

/-- C5: the record classifier is a total function of the `schema`
discriminator.  A node row's name is the first element of the `name`
property when that is a non-empty list, else absent; a node record with
a falsy identifier is dropped silently by the node pass; a
`Directorship` (resp. `Ownership`) record with truthy `director` /
`organization` (resp. `owner` / `asset`) first values yields exactly the
corresponding edge row with type `DIRECTORSHIP` (resp. `OWNERSHIP`); an
edge record missing either endpoint value, or any other schema, yields
no row. -/
theorem C5_record_classifier (e : JObj) :
    (∀ x xs, pyGet (propsOf e) "name" = JVal.arr (x :: xs) → (to_node_row e).name = x) ∧
    ((∀ x xs, pyGet (propsOf e) "name" ≠ JVal.arr (x :: xs)) →
      (to_node_row e).name = JVal.null) ∧
    (∀ (es1 es2 : List JObj) (st : Store) (bs : Nat),
      jtruthy (pyGet e "id") = false →
      import_nodes (es1 ++ e :: es2) st bs = import_nodes (es1 ++ es2) st bs) ∧
    (pyGet e "schema" = JVal.str "Directorship" →
      (jtruthy (prop_first e "director") = true →
        jtruthy (prop_first e "organization") = true →
        to_rel_row e = some ("DIRECTORSHIP",
          { id := pyGet e "id", schema := pyGet e "schema"
          , source_id := prop_first e "director"
          , target_id := prop_first e "organization"
          , datasets := pyOr (pyGet e "datasets") (JVal.arr [])
          , modified_at := pyOr (pyGet e "modifiedAt") (pyGet e "modified_at") })) ∧
      (jtruthy (prop_first e "director") = false ∨
        jtruthy (prop_first e "organization") = false →
        to_rel_row e = none)) ∧
    (pyGet e "schema" = JVal.str "Ownership" →
      (jtruthy (prop_first e "owner") = true →
        jtruthy (prop_first e "asset") = true →
        to_rel_row e = some ("OWNERSHIP",
          { id := pyGet e "id", schema := pyGet e "schema"
          , source_id := prop_first e "owner"
          , target_id := prop_first e "asset"
          , datasets := pyOr (pyGet e "datasets") (JVal.arr [])
          , modified_at := pyOr (pyGet e "modifiedAt") (pyGet e "modified_at") })) ∧
      (jtruthy (prop_first e "owner") = false ∨
        jtruthy (prop_first e "asset") = false →
        to_rel_row e = none)) ∧
    (¬(pyGet e "schema" = JVal.str "Directorship") →
      ¬(pyGet e "schema" = JVal.str "Ownership") → to_rel_row e = none) := by
  refine ⟨?_, ?_, ?_, ?_, ?_, ?_⟩
  · intro x xs h
    show prop_first e "name" = x
    exact prop_first_of_list e "name" x xs h
  · intro h
    show prop_first e "name" = JVal.null
    exact prop_first_null e "name" h
  · intro es1 es2 st bs hid
    have hrows : ∀ sname : String, nodeRowsOf (es1 ++ e :: es2) sname
        = nodeRowsOf (es1 ++ es2) sname := by
      intro sname
      unfold nodeRowsOf
      rw [List.filterMap_append, List.filterMap_append, List.filterMap_cons]
      have : (if pyGet e "schema" = JVal.str sname then
          let row := to_node_row e
          if jtruthy row.id then some row else none
        else none) = (none : Option NodeRow) := by
        split
        · dsimp only
          rw [show (to_node_row e).id = pyGet e "id" from rfl, hid]
          rfl
        · rfl
      rw [this]
    rw [import_nodes_norm, import_nodes_norm, hrows "Company", hrows "Person"]
  · intro hsch
    constructor
    · intro h1 h2
      simp only [to_rel_row]
      rw [if_pos hsch, if_neg (by simp [h1, h2])]
    · intro h
      simp only [to_rel_row]
      rw [if_pos hsch, if_pos (by rcases h with h | h <;> simp [h])]
  · intro hsch
    have hnd : ¬(pyGet e "schema" = JVal.str "Directorship") := by
      rw [hsch]
      decide
    constructor
    · intro h1 h2
      simp only [to_rel_row]
      rw [if_neg hnd, if_pos hsch, if_neg (by simp [h1, h2])]
    · intro h
      simp only [to_rel_row]
      rw [if_neg hnd, if_pos hsch, if_pos (by rcases h with h | h <;> simp [h])]
  · intro h1 h2
    simp only [to_rel_row]
    rw [if_neg h1, if_neg h2]

/-- Witness for `C5_record_classifier`: the directorship record `entDir`
classifies to the `DIRECTORSHIP` edge row `P1 -> C1`. -/
theorem C5_record_classifier_witness :
    to_rel_row entDir = some ("DIRECTORSHIP",
      { id := pyGet entDir "id", schema := pyGet entDir "schema"
      , source_id := prop_first entDir "director"
      , target_id := prop_first entDir "organization"
      , datasets := pyOr (pyGet entDir "datasets") (JVal.arr [])
      , modified_at := pyOr (pyGet entDir "modifiedAt") (pyGet entDir "modified_at") }) :=
  ((C5_record_classifier entDir).2.2.2.1 (by decide)).1 (by decide) (by decide)

/-- C10: a scalar (non-list) or empty-list property value is treated as
absent by `prop_first`; consequently a `Company`/`Person` record whose
`name` property is a bare scalar yields a node row with no name, and a
`Directorship`/`Ownership` record whose `director`, `organization`,
`owner`, or `asset` property is a bare scalar yields no edge row at
all. -/
theorem C10_scalar_property_is_absent (e : JObj) :
    (∀ k : String, (∀ x xs, pyGet (propsOf e) k ≠ JVal.arr (x :: xs)) →
      prop_first e k = JVal.null) ∧
    (pyGet e "schema" = JVal.str "Company" ∨ pyGet e "schema" = JVal.str "Person" →
      (∀ x xs, pyGet (propsOf e) "name" ≠ JVal.arr (x :: xs)) →
      (to_node_row e).name = JVal.null) ∧
    (pyGet e "schema" = JVal.str "Directorship" →
      ((∀ x xs, pyGet (propsOf e) "director" ≠ JVal.arr (x :: xs)) ∨
       (∀ x xs, pyGet (propsOf e) "organization" ≠ JVal.arr (x :: xs)) →
      to_rel_row e = none)) ∧
    (pyGet e "schema" = JVal.str "Ownership" →
      ((∀ x xs, pyGet (propsOf e) "owner" ≠ JVal.arr (x :: xs)) ∨
       (∀ x xs, pyGet (propsOf e) "asset" ≠ JVal.arr (x :: xs)) →
      to_rel_row e = none)) := by
  refine ⟨?_, ?_, ?_, ?_⟩
  · intro k h
    exact prop_first_null e k h
  · intro _ h
    show prop_first e "name" = JVal.null
    exact prop_first_null e "name" h
  · intro hsch h
    simp only [to_rel_row]
    rw [if_pos hsch]
    rw [if_pos (by rcases h with h | h <;> simp [prop_first_null e _ h, jtruthy])]
  · intro hsch h
    have hnd : ¬(pyGet e "schema" = JVal.str "Directorship") := by
      rw [hsch]
      decide
    simp only [to_rel_row]
    rw [if_neg hnd, if_pos hsch]
    rw [if_pos (by rcases h with h | h <;> simp [prop_first_null e _ h, jtruthy])]

/-- Witness for `C10_scalar_property_is_absent`: the scalar `director`
value drops the whole edge record. -/
theorem C10_scalar_property_is_absent_witness :
    to_rel_row entScalarDir = none :=
  (C10_scalar_property_is_absent entScalarDir).2.2.1 (by decide)
    (Or.inl (fun x xs hcon => nomatch hcon))

/-- C8: the reader selects its mode from the first non-whitespace byte
of a fixed-size prefix.  No such byte in the 4096-byte prefix yields the
empty sequence; byte `[` yields exactly the array elements that are
objects; any other first byte yields exactly the concatenated top-level
values that are objects; non-object elements contribute nothing in
either mode; and the mode decision depends only on the 4096-byte
prefix. -/
theorem C8_reader_mode_selection (parseArr parseMulti : List Nat → List JVal)
    (bytes : List Nat) :
    (first_non_ws_byte bytes = none → iter_entities parseArr parseMulti bytes = []) ∧
    (first_non_ws_byte bytes = some 91 →
      iter_entities parseArr parseMulti bytes = (parseArr bytes).filterMap jObjOf) ∧
    (∀ b, first_non_ws_byte bytes = some b → b ≠ 91 →
      iter_entities parseArr parseMulti bytes = (parseMulti bytes).filterMap jObjOf) ∧
    (∀ (l1 l2 : List JVal) (v : JVal), (∀ kvs, v ≠ JVal.obj kvs) →
      (l1 ++ v :: l2).filterMap jObjOf = (l1 ++ l2).filterMap jObjOf) ∧
    (∀ bytes2 : List Nat, bytes.take 4096 = bytes2.take 4096 →
      first_non_ws_byte bytes = first_non_ws_byte bytes2) := by
  refine ⟨?_, ?_, ?_, ?_, ?_⟩
  · intro h
    unfold iter_entities
    rw [h]
  · intro h
    unfold iter_entities
    rw [h]
    rfl
  · intro b h hb
    unfold iter_entities
    rw [h]
    dsimp only
    rw [if_neg hb]
  · intro l1 l2 v hv
    have hnone : jObjOf v = none := by
      unfold jObjOf
      split
      · rename_i kvs
        exact absurd rfl (hv kvs)
      · rfl
    rw [List.filterMap_append, List.filterMap_append, List.filterMap_cons, hnone]
  · intro bytes2 h
    unfold first_non_ws_byte
    rw [h]

/-- Witness for `C8_reader_mode_selection`: a file whose first
non-whitespace byte is `[` (after a space) streams the parsed array,
keeping only the object elements. -/
theorem C8_reader_mode_selection_witness :
    iter_entities (fun _ => [JVal.obj [], JVal.num 3]) (fun _ => []) [32, 91]
      = ([JVal.obj [], JVal.num 3]).filterMap jObjOf :=
  (C8_reader_mode_selection (fun _ => [JVal.obj [], JVal.num 3]) (fun _ => [])
    [32, 91]).2.1 (by decide)
